import Mathlib

/-!
Verification development for the Hybrid Option Pricing Engine
(binomial-lattice valuation of RCPS / CB / CPS / ESO securities).

The TypeScript source is shallowly embedded here:
* calendar dates are integer day counts (the source parses ISO strings
  into `Date` objects and only ever compares them or takes day
  differences, both of which factor through the epoch-day integer);
* IEEE doubles are modelled as real numbers (`ℝ`), so the statements
  are about the exact-arithmetic behaviour of the algorithms;
* optional / nullable TypeScript fields are `Option` values, and the
  source's truthiness tests (`if (x)`, `x ? a : b`, `x || fallback`)
  are translated as the corresponding `Option` match plus, for
  numbers, the `≠ 0` test.
-/

namespace HybridPricing

/-- Calendar date as an integer day count (`Date.getTime() / MS_PER_DAY`). -/
abbrev CalDate := Int

/-- `TimeStep` of the weekly grid (`step`, `date`, `t_years`); the
`dateStr` field of the source is the ISO rendering of `date` and is
not carried separately. -/
structure TimeStep where
  step : Nat
  date : CalDate
  t_years : ℝ

/-- `getDateDiffYears`: day difference over 365 (ACT/365F). -/
noncomputable def getDateDiffYears (d1 d2 : CalDate) : ℝ :=
  ((d2 - d1 : Int) : ℝ) / 365

/-- The weekly while-loop of `generateTimeGrid`: emit a node every 7
days while strictly before maturity. -/
noncomputable def gridLoop (valDate matDate : CalDate) (current : CalDate) (step : Nat) :
    List TimeStep :=
  if h : current < matDate then
    { step := step, date := current, t_years := getDateDiffYears valDate current } ::
      gridLoop valDate matDate (current + 7) (step + 1)
  else []
termination_by (matDate - current).toNat
decreasing_by
  simp_wf
  exact h

/-- `generateTimeGrid`: weekly grid from valuation to maturity, with
the final node pinned to the maturity date.  A degenerate input
(maturity ≤ valuation) yields the trivial two-point grid. -/
noncomputable def generateTimeGrid (valDate matDate : CalDate) : List TimeStep :=
  if matDate ≤ valDate then
    [ { step := 0, date := valDate, t_years := 0 },
      { step := 1, date := valDate, t_years := 0.0027 } ]
  else
    let body := gridLoop valDate matDate valDate 0
    body ++ [ { step := body.length, date := matDate,
                t_years := getDateDiffYears valDate matDate } ]

/-- `SecurityType` tag. -/
inductive SecurityType
  | RCPS
  | CB
  | CPS
  | ESO
deriving DecidableEq

/-- `PositionType`. -/
inductive PositionType
  | HOLDER
  | ISSUER
deriving DecidableEq

/-- `AntiDilutionType`. -/
inductive AntiDilutionType
  | NONE
  | FULL_RATCHET
  | WA_DOWN_ONLY
deriving DecidableEq

/-- `ParticipationType`. -/
inductive ParticipationType
  | NON_PARTICIPATING
  | PARTICIPATING
deriving DecidableEq

/-- `ResetEvent` (a dilutive issue triggering a conversion-price reset). -/
structure ResetEvent where
  event_date : CalDate
  issue_price_new : ℝ
  issue_shares_new : ℝ
  shares_outstanding_before_reset : Option ℝ

/-- `SecuritySchema`: the input record consumed by the pricing engine.
Fields that are optional (or nullable) in the TypeScript interface are
`Option`s; the destructuring defaults of the source are applied at the
use sites, exactly as the source does. -/
structure SecuritySchema where
  security_type : SecurityType
  position : PositionType
  total_issue_price : ℝ
  num_issued_shares : ℝ
  share_price_current : ℝ
  valuation_date : CalDate
  maturity_date : CalDate
  coupon_rate : ℝ
  dividend_rate : ℝ
  repayment_premium_rate : Option ℝ
  conversion_price : ℝ
  conversion_ratio : Option ℝ
  anti_dilution_type : AntiDilutionType
  refixing_floor_price : Option ℝ
  reset_events : List ResetEvent
  participation_type : ParticipationType
  participation_cap_multiple : Option ℝ
  volatility : ℝ
  risk_free_rate : ℝ
  credit_spread : ℝ
  stepwise_risk_free_rates : Option (List ℝ)
  stepwise_credit_spreads : Option (List ℝ)
  has_call_option : Bool
  call_price : Option ℝ
  call_start_date : Option CalDate
  call_end_date : Option CalDate
  has_put_option : Bool
  put_price : Option ℝ
  put_start_date : Option CalDate
  put_end_date : Option CalDate
  num_options : Option ℝ
  strike_price : Option ℝ
  vesting_end_date : Option CalDate
  employee_exit_rate : Option ℝ
  early_exercise_multiple : Option ℝ

/-- The floor clamp applied after a reset: the floor bites only when
it is set and truthy (non-zero) and the updated price undercuts it. -/
noncomputable def floorClamp (floorP : Option ℝ) (cp1 : ℝ) : ℝ :=
  match floorP with
  | some f => if f ≠ 0 ∧ cp1 < f then f else cp1
  | none => cp1

/-- The effective shares-outstanding input of a weighted-average
reset: the recorded value, or the fallback constant 1,000,000 when it
is missing or zero (falsy). -/
noncomputable def effectiveSO (evt : ResetEvent) : ℝ :=
  match evt.shares_outstanding_before_reset with
  | some so => if so = 0 then 1000000 else so
  | none => 1000000

/-- One reset event applied to the running conversion price (the body
of the while-loop in the refixing-schedule pre-computation): the event
may only fire when its new issue price undercuts the current
conversion price, and the floor clamps the updated price from below. -/
noncomputable def applyResetEvent (anti : AntiDilutionType) (floorP : Option ℝ)
    (current_cp : ℝ) (evt : ResetEvent) : ℝ :=
  if evt.issue_price_new < current_cp then
    let cp1 :=
      if anti = AntiDilutionType.FULL_RATCHET then
        evt.issue_price_new
      else if anti = AntiDilutionType.WA_DOWN_ONLY then
        let SO := effectiveSO evt
        let num := SO + (evt.issue_price_new / current_cp) * evt.issue_shares_new
        let den := SO + evt.issue_shares_new
        current_cp * (num / den)
      else current_cp
    floorClamp floorP cp1
  else current_cp

/-- The inner while-loop: consume (already sorted) events whose date is
at or before the given step date, returning the updated conversion
price and the remaining events. -/
noncomputable def consumeEvents (anti : AntiDilutionType) (floorP : Option ℝ) :
    List ResetEvent → ℝ → CalDate → ℝ × List ResetEvent
  | [], cp, _ => (cp, [])
  | evt :: rest, cp, stepDate =>
    if evt.event_date ≤ stepDate then
      consumeEvents anti floorP rest (applyResetEvent anti floorP cp evt) stepDate
    else (cp, evt :: rest)

/-- The outer for-loop over grid steps: record the running conversion
price at each step after consuming the due events. -/
noncomputable def cpSweep (anti : AntiDilutionType) (floorP : Option ℝ) :
    List ResetEvent → ℝ → List TimeStep → List ℝ
  | _, _, [] => []
  | events, cp, ts :: rest =>
    let res := consumeEvents anti floorP events cp ts.date
    res.1 :: cpSweep anti floorP res.2 res.1 rest

/-- `cp_at_step`: the pre-computed effective conversion price at each
grid step.  When anti-dilution is off or there are no reset events the
schedule stays at the initial conversion price.  Events are consumed
in chronological order (the source sorts them with a stable sort). -/
noncomputable def cpSchedule (anti : AntiDilutionType) (floorP : Option ℝ)
    (events : List ResetEvent) (initial_cp : ℝ) (grid : List TimeStep) : List ℝ :=
  if anti ≠ AntiDilutionType.NONE ∧ 0 < events.length then
    cpSweep anti floorP
      (List.insertionSort (fun a b => a.event_date ≤ b.event_date) events)
      initial_cp grid
  else grid.map (fun _ => initial_cp)

/-! ### Invariants of the refixing schedule -/

/-- Admissibility of a reset event's numeric data: positive new issue
price, non-negative new share count, non-negative recorded shares
outstanding. -/
def EventAdmissible (evt : ResetEvent) : Prop :=
  0 < evt.issue_price_new ∧ 0 ≤ evt.issue_shares_new ∧
    ∀ so, evt.shares_outstanding_before_reset = some so → 0 ≤ so

/-- Running invariant of the refixing sweep: the conversion price is
positive and dominates the floor when one is set. -/
def CpInv (floorP : Option ℝ) (cp : ℝ) : Prop :=
  0 < cp ∧ ∀ f, floorP = some f → f ≤ cp

theorem effectiveSO_pos (evt : ResetEvent)
    (hso : ∀ so, evt.shares_outstanding_before_reset = some so → 0 ≤ so) :
    0 < effectiveSO evt := by
  unfold effectiveSO
  cases h : evt.shares_outstanding_before_reset with
  | none => norm_num
  | some so =>
    have hle := hso so h
    by_cases h0 : so = 0
    · simp only [h0, if_pos rfl]
      norm_num
    · simp only [if_neg h0]
      exact lt_of_le_of_ne hle (Ne.symm h0)

theorem floorClamp_le {floorP : Option ℝ} {cp cp1 : ℝ} (h1 : 0 < cp1) (h2 : cp1 ≤ cp)
    (hfl : ∀ f, floorP = some f → f ≤ cp) :
    floorClamp floorP cp1 ≤ cp ∧ CpInv floorP (floorClamp floorP cp1) := by
  unfold floorClamp
  cases floorP with
  | none => exact ⟨h2, h1, by simp⟩
  | some f =>
    by_cases hc : f ≠ 0 ∧ cp1 < f
    · simp only [if_pos hc]
      exact ⟨hfl f rfl, lt_trans h1 hc.2, fun f' hf' => le_of_eq (Option.some_inj.mp hf').symm⟩
    · simp only [if_neg hc]
      push_neg at hc
      refine ⟨h2, h1, fun f' hf' => ?_⟩
      obtain rfl : f = f' := Option.some_inj.mp hf'
      by_cases h0 : f = 0
      · exact h0 ▸ le_of_lt h1
      · exact hc h0

/-- Applying one admissible event can only lower a conversion price
that satisfies the running invariant, and re-establishes it. -/
theorem applyResetEvent_le (anti : AntiDilutionType) (floorP : Option ℝ) {cp : ℝ}
    (evt : ResetEvent) (hinv : CpInv floorP cp) (hevt : EventAdmissible evt) :
    applyResetEvent anti floorP cp evt ≤ cp ∧
      CpInv floorP (applyResetEvent anti floorP cp evt) := by
  obtain ⟨hcp, hfl⟩ := hinv
  obtain ⟨hp, hn, hso⟩ := hevt
  unfold applyResetEvent
  by_cases hlt : evt.issue_price_new < cp
  · simp only [if_pos hlt]
    rcases anti with _ | _ | _
    · -- NONE (unreachable behind the outer guard): cp1 = cp
      simpa using floorClamp_le hcp le_rfl hfl
    · -- FULL_RATCHET: cp1 is the new issue price
      simpa using floorClamp_le hp (le_of_lt hlt) hfl
    · -- WA_DOWN_ONLY: broad-based weighted average
      have hSO := effectiveSO_pos evt hso
      have hratio : 0 < evt.issue_price_new / cp := div_pos hp hcp
      have hnum : 0 < effectiveSO evt + evt.issue_price_new / cp * evt.issue_shares_new :=
        add_pos_of_pos_of_nonneg hSO (mul_nonneg (le_of_lt hratio) hn)
      have hden : 0 < effectiveSO evt + evt.issue_shares_new := add_pos_of_pos_of_nonneg hSO hn
      have hcp1pos : 0 < cp * ((effectiveSO evt +
          evt.issue_price_new / cp * evt.issue_shares_new) /
          (effectiveSO evt + evt.issue_shares_new)) :=
        mul_pos hcp (div_pos hnum hden)
      have hle1 : evt.issue_price_new / cp * evt.issue_shares_new ≤ evt.issue_shares_new := by
        have : evt.issue_price_new / cp ≤ 1 := le_of_lt ((div_lt_one hcp).mpr hlt)
        nlinarith
      have hcp1le : cp * ((effectiveSO evt +
          evt.issue_price_new / cp * evt.issue_shares_new) /
          (effectiveSO evt + evt.issue_shares_new)) ≤ cp := by
        have hq : (effectiveSO evt + evt.issue_price_new / cp * evt.issue_shares_new) /
            (effectiveSO evt + evt.issue_shares_new) ≤ 1 :=
          (div_le_one hden).mpr (by linarith)
        nlinarith
      simpa using floorClamp_le hcp1pos hcp1le hfl
  · simp only [if_neg hlt]
    exact ⟨le_rfl, hcp, hfl⟩

/-- `consumeEvents` can only lower an invariant-satisfying conversion
price; the invariant and the admissibility of the remaining events are
preserved. -/
theorem consumeEvents_le (anti : AntiDilutionType) (floorP : Option ℝ) :
    ∀ (events : List ResetEvent) (cp : ℝ) (d : CalDate), CpInv floorP cp →
      (∀ e ∈ events, EventAdmissible e) →
      (consumeEvents anti floorP events cp d).1 ≤ cp ∧
        CpInv floorP (consumeEvents anti floorP events cp d).1 ∧
        ∀ e ∈ (consumeEvents anti floorP events cp d).2, EventAdmissible e
  | [], cp, d, hinv, hall => ⟨le_rfl, hinv, by simp [consumeEvents]⟩
  | evt :: rest, cp, d, hinv, hall => by
    unfold consumeEvents
    by_cases hd : evt.event_date ≤ d
    · simp only [if_pos hd]
      have happ := applyResetEvent_le anti floorP evt hinv (hall evt (by simp))
      have hrec := consumeEvents_le anti floorP rest (applyResetEvent anti floorP cp evt) d
        happ.2 (fun e he => hall e (by simp [he]))
      exact ⟨le_trans hrec.1 happ.1, hrec.2.1, hrec.2.2⟩
    · simp only [if_neg hd]
      exact ⟨le_rfl, hinv, hall⟩

/-- The values emitted by the sweep, seeded with an
invariant-satisfying price, form a non-increasing chain. -/
theorem cpSweep_chain (anti : AntiDilutionType) (floorP : Option ℝ) :
    ∀ (grid : List TimeStep) (events : List ResetEvent) (cp : ℝ), CpInv floorP cp →
      (∀ e ∈ events, EventAdmissible e) →
      List.Chain' (fun a b => b ≤ a) (cp :: cpSweep anti floorP events cp grid)
  | [], events, cp, _, _ => List.chain'_singleton cp
  | ts :: rest, events, cp, hinv, hall => by
    unfold cpSweep
    have hcons := consumeEvents_le anti floorP events cp ts.date hinv hall
    have hrec := cpSweep_chain anti floorP rest
      (consumeEvents anti floorP events cp ts.date).2
      (consumeEvents anti floorP events cp ts.date).1 hcons.2.1 hcons.2.2
    exact List.chain'_cons.mpr ⟨hcons.1, hrec⟩

/-- The values emitted by the sweep all dominate a truthy floor that
the seed dominates (the clamp re-establishes the bound after every
applied event). -/
theorem floorClamp_floor_le {f : ℝ} (hf : f ≠ 0) (cp1 : ℝ) :
    f ≤ floorClamp (some f) cp1 := by
  unfold floorClamp
  by_cases hc : f ≠ 0 ∧ cp1 < f
  · simp only [if_pos hc]
    exact le_rfl
  · simp only [if_neg hc]
    push_neg at hc
    exact hc hf

theorem applyResetEvent_floor_le (anti : AntiDilutionType) {f cp : ℝ} (hf : f ≠ 0)
    (hle : f ≤ cp) (evt : ResetEvent) : f ≤ applyResetEvent anti (some f) cp evt := by
  unfold applyResetEvent
  by_cases hlt : evt.issue_price_new < cp
  · simp only [if_pos hlt]
    exact floorClamp_floor_le hf _
  · simpa only [if_neg hlt] using hle

theorem consumeEvents_floor_le (anti : AntiDilutionType) {f : ℝ} (hf : f ≠ 0) :
    ∀ (events : List ResetEvent) (cp : ℝ) (d : CalDate), f ≤ cp →
      f ≤ (consumeEvents anti (some f) events cp d).1
  | [], _, _, hle => hle
  | evt :: rest, cp, d, hle => by
    unfold consumeEvents
    by_cases hd : evt.event_date ≤ d
    · simp only [if_pos hd]
      exact consumeEvents_floor_le anti hf rest _ d (applyResetEvent_floor_le anti hf hle evt)
    · simpa only [if_neg hd] using hle

theorem cpSweep_floor_le (anti : AntiDilutionType) {f : ℝ} (hf : f ≠ 0) :
    ∀ (grid : List TimeStep) (events : List ResetEvent) (cp : ℝ), f ≤ cp →
      ∀ x ∈ cpSweep anti (some f) events cp grid, f ≤ x
  | [], _, _, _ => by simp [cpSweep]
  | ts :: rest, events, cp, hle => by
    unfold cpSweep
    intro x hx
    rcases List.mem_cons.mp hx with rfl | hx'
    · exact consumeEvents_floor_le anti hf events cp ts.date hle
    · exact cpSweep_floor_le anti hf rest _ _
        (consumeEvents_floor_le anti hf events cp ts.date hle) x hx'

theorem getD_lower_bound {l : List ℝ} {f d : ℝ} (h : ∀ x ∈ l, f ≤ x) (hd : f ≤ d)
    (t : ℕ) : f ≤ l.getD t d := by
  by_cases hlen : t < l.length
  · rw [List.getD_eq_getElem l d hlen]
    exact h _ (l.getElem_mem hlen)
  · rw [List.getD_eq_default l d (le_of_not_lt hlen)]
    exact hd

theorem chain'_map_const {α β : Type*} (l : List α) (c : β) (R : β → β → Prop)
    (h : R c c) : List.Chain' R (l.map fun _ => c) := by
  induction l with
  | nil => simp
  | cons a l ih =>
    cases l with
    | nil => exact List.chain'_singleton c
    | cons b l' => exact List.chain'_cons.mpr ⟨h, ih⟩

theorem cpSchedule_chain (anti : AntiDilutionType) (floorP : Option ℝ)
    (events : List ResetEvent) {cp0 : ℝ} (grid : List TimeStep) (hcp0 : 0 < cp0)
    (hfl : ∀ f, floorP = some f → f ≤ cp0) (hev : ∀ e ∈ events, EventAdmissible e) :
    List.Chain' (fun a b => b ≤ a) (cpSchedule anti floorP events cp0 grid) := by
  unfold cpSchedule
  by_cases hg : anti ≠ AntiDilutionType.NONE ∧ 0 < events.length
  · simp only [if_pos hg]
    exact (cpSweep_chain anti floorP grid _ cp0 ⟨hcp0, hfl⟩
      (fun e he => hev e ((List.mem_insertionSort _).mp he))).tail
  · simp only [if_neg hg]
    exact chain'_map_const grid cp0 _ le_rfl

/-! ### Claim C4 -/

/-- The reset event used in the C4 counterexample: a full-ratchet down
round at day 3, landing between the two steps of a one-week grid. -/
def c4Event : ResetEvent :=
  { event_date := 3, issue_price_new := 9000, issue_shares_new := 0,
    shares_outstanding_before_reset := none }

/-- Closed form of the one-week grid used by several witnesses: one
weekly step at the valuation date, then the maturity stub. -/
theorem generateTimeGrid_0_7 :
    generateTimeGrid 0 7 =
      [ { step := 0, date := 0, t_years := 0 },
        { step := 1, date := 7, t_years := 7 / 365 } ] := by
  rw [generateTimeGrid, if_neg (by norm_num)]
  rw [gridLoop, dif_pos (by norm_num), gridLoop, dif_neg (by norm_num)]
  norm_num [getDateDiffYears]

/-- The effective conversion-price schedule of the C4 counterexample:
initial conversion price 10000 *below* the floor 14000. -/
noncomputable def c4Schedule : List ℝ :=
  cpSchedule AntiDilutionType.FULL_RATCHET (some 14000) [c4Event] 10000
    (generateTimeGrid 0 7)

theorem c4Schedule_eval : c4Schedule = [10000, 14000] := by
  rw [c4Schedule, generateTimeGrid_0_7]
  norm_num [cpSchedule, cpSweep, consumeEvents, applyResetEvent, floorClamp, c4Event,
    List.insertionSort, List.orderedInsert]
  decide

/-- C4 counterexample: with a refixing floor above the initial
conversion price, the first applied reset gets clamped *up* to the
floor, so `cp_eff[1] = 14000 > 10000 = cp_eff[0]` and the schedule is
not monotone non-increasing. -/
theorem C4_counterexample :
    ¬ (c4Schedule.getD 1 10000 ≤ c4Schedule.getD 0 10000) := by
  rw [c4Schedule_eval]
  norm_num [List.getD]

/-- C4 (amended): for a TF security whose initial conversion price is
positive, whose reset events carry positive new issue prices and
non-negative share counts, and whose refixing floor (when set) does
not exceed the initial conversion price, the pre-computed effective
conversion-price schedule is monotone non-increasing:
`cp_eff[t+1] ≤ cp_eff[t]` for every step with `t+1` inside the
schedule. -/
theorem C4_theorem (anti : AntiDilutionType) (floorP : Option ℝ)
    (events : List ResetEvent) {cp0 : ℝ} (grid : List TimeStep) (hcp0 : 0 < cp0)
    (hfl : ∀ f, floorP = some f → f ≤ cp0) (hev : ∀ e ∈ events, EventAdmissible e)
    (t : ℕ) (ht : t + 1 < (cpSchedule anti floorP events cp0 grid).length) :
    (cpSchedule anti floorP events cp0 grid).getD (t + 1) cp0 ≤
      (cpSchedule anti floorP events cp0 grid).getD t cp0 := by
  have hchain := cpSchedule_chain anti floorP events grid hcp0 hfl hev
  have hstep := List.chain'_iff_get.mp hchain t (by omega)
  rw [List.getD_eq_getElem _ _ ht,
    List.getD_eq_getElem _ _ (lt_trans (Nat.lt_succ_self t) ht)]
  simpa [List.get_eq_getElem] using hstep

/-- C4 witness: the amended monotonicity applied to a concrete
admissible schedule (floor 9000 ≤ initial price 10000). -/
theorem C4_witness :
    (0:ℝ) < 10000 ∧
      (cpSchedule AntiDilutionType.FULL_RATCHET (some 9000) [c4Event] 10000
          (generateTimeGrid 0 7)).getD 1 10000 ≤
        (cpSchedule AntiDilutionType.FULL_RATCHET (some 9000) [c4Event] 10000
          (generateTimeGrid 0 7)).getD 0 10000 := by
  refine ⟨by norm_num, C4_theorem _ _ _ _ (by norm_num)
    (fun f hff => by simp only [Option.some_inj] at hff; rw [← hff]; norm_num)
    (fun e he => ?_) 0 ?_⟩
  · simp only [List.mem_singleton] at he
    subst he
    refine ⟨by norm_num [c4Event], by norm_num [c4Event], ?_⟩
    intro so hso
    simp [c4Event] at hso
  · rw [generateTimeGrid_0_7]
    norm_num [cpSchedule, cpSweep, consumeEvents, applyResetEvent, floorClamp, c4Event,
      List.insertionSort, List.orderedInsert]
    rw [apply_ite List.length]
    norm_num

/-! ### Claim C5 -/

/-- The schedule of the C5 counterexample: floor 14000 set, initial
conversion price 10000 below it, and no reset event ever firing. -/
noncomputable def c5Schedule : List ℝ :=
  cpSchedule AntiDilutionType.FULL_RATCHET (some 14000) [] 10000 (generateTimeGrid 0 7)

/-- C5 counterexample: the floor clamp only runs after an applied
reset event, so with no event the effective conversion price stays at
the initial 10000, strictly below the floor 14000: `cp_eff[0] ≥ floor`
fails. -/
theorem C5_counterexample : ¬ ((14000:ℝ) ≤ c5Schedule.getD 0 10000) := by
  have h : c5Schedule = [10000, 10000] := by
    rw [c5Schedule, generateTimeGrid_0_7]
    norm_num [cpSchedule]
  rw [h]
  norm_num [List.getD]

/-- C5 (amended): when a truthy (non-zero) refixing floor is set and
does not exceed the initial conversion price, the effective conversion
price dominates the floor at every step. -/
theorem C5_theorem (anti : AntiDilutionType) (events : List ResetEvent) {f cp0 : ℝ}
    (grid : List TimeStep) (hf : f ≠ 0) (hle : f ≤ cp0) (t : ℕ) :
    f ≤ (cpSchedule anti (some f) events cp0 grid).getD t cp0 := by
  unfold cpSchedule
  by_cases hg : anti ≠ AntiDilutionType.NONE ∧ 0 < events.length
  · simp only [if_pos hg]
    exact getD_lower_bound (cpSweep_floor_le anti hf grid _ cp0 hle) hle t
  · simp only [if_neg hg]
    refine getD_lower_bound (fun x hx => ?_) hle t
    obtain ⟨_, _, rfl⟩ := List.mem_map.mp hx
    exact hle

/-- C5 witness: the amended floor bound applied to a concrete schedule
with floor 9000 ≤ initial price 10000. -/
theorem C5_witness :
    (9000:ℝ) ≠ 0 ∧
      (9000:ℝ) ≤ (cpSchedule AntiDilutionType.FULL_RATCHET (some 9000) [c4Event] 10000
        (generateTimeGrid 0 7)).getD 1 10000 :=
  ⟨by norm_num, C5_theorem AntiDilutionType.FULL_RATCHET [c4Event]
    (generateTimeGrid 0 7) (by norm_num) (by norm_num) 1⟩

/-! ### The TF engine (RCPS / CB / CPS) -/

instance : Inhabited TimeStep := ⟨⟨0, 0, 0⟩⟩

/-- Per-unit face value: per-bond for CB, per-share for RCPS/CPS. -/
noncomputable def unitFaceValue (sec : SecuritySchema) : ℝ :=
  if sec.security_type = SecurityType.CB then sec.total_issue_price
  else sec.total_issue_price / sec.num_issued_shares

/-- Per-unit redemption value (face plus repayment premium). -/
noncomputable def unitRedemptionValue (sec : SecuritySchema) : ℝ :=
  unitFaceValue sec * (1 + sec.repayment_premium_rate.getD 0)

/-- Per-unit periodic cash flow per step (coupon plus, for per-share
instruments, dividend). -/
noncomputable def unitPeriodicCF (sec : SecuritySchema) (dt : ℝ) : ℝ :=
  if sec.security_type = SecurityType.CB then sec.total_issue_price * sec.coupon_rate * dt
  else unitFaceValue sec * (sec.coupon_rate + sec.dividend_rate) * dt

/-- `getEffectiveConversionRatio`: the explicit ratio override wins
only when it is truthy-positive and anti-dilution is off; otherwise
the ratio is face over the scheduled conversion price. -/
noncomputable def effConvRatio (sec : SecuritySchema) (cp_at : ℕ → ℝ) (t : ℕ) : ℝ :=
  match sec.conversion_ratio with
  | some rr =>
    if 0 < rr ∧ sec.anti_dilution_type = AntiDilutionType.NONE then rr
    else unitFaceValue sec / cp_at t
  | none => unitFaceValue sec / cp_at t

/-- Issuer-call window membership at a step date: requires the call
flag, a non-null call price, and a set start date; a missing end date
defaults to maturity, a missing start date disables the window. -/
def canCallAt (sec : SecuritySchema) (stepDate : CalDate) : Bool :=
  sec.has_call_option && sec.call_price.isSome &&
    match sec.call_start_date with
    | some start =>
      decide (start ≤ stepDate) && decide (stepDate ≤ sec.call_end_date.getD sec.maturity_date)
    | none => false

/-- Holder-put window membership (same shape as the call window). -/
def canPutAt (sec : SecuritySchema) (stepDate : CalDate) : Bool :=
  sec.has_put_option && sec.put_price.isSome &&
    match sec.put_start_date with
    | some start =>
      decide (start ≤ stepDate) && decide (stepDate ≤ sec.put_end_date.getD sec.maturity_date)
    | none => false

/-- The running state of one lattice node inside the decision cascade:
holding value `V`, debt leg `D`, equity leg `E` and the event flag. -/
structure NodeState where
  V : ℝ
  D : ℝ
  E : ℝ
  flag : String

/-- Decision 1 — voluntary conversion by the holder. -/
noncomputable def applyConversion (conv : ℝ) (s : NodeState) : NodeState :=
  if s.V < conv then { V := conv, D := 0, E := conv, flag := "CONVERT" } else s

/-- Decision 2 — issuer call: the called holder receives the better of
the call price and conversion; the issuer calls only when that payoff
is below the holding value. -/
noncomputable def applyCall (canC : Bool) (callP : Option ℝ) (conv : ℝ)
    (s : NodeState) : NodeState :=
  match callP with
  | some cprice =>
    if canC then
      let holder_val := max cprice conv
      if holder_val < s.V then
        if cprice < conv then { V := holder_val, D := 0, E := conv, flag := "CALLED_FORCE_CONV" }
        else { V := holder_val, D := cprice, E := 0, flag := "CALLED" }
      else s
    else s
  | none => s

/-- Decision 3 — holder put. -/
noncomputable def applyPut (canP : Bool) (putP : Option ℝ) (s : NodeState) : NodeState :=
  match putP with
  | some pprice =>
    if canP then
      if s.V < pprice then { V := pprice, D := pprice, E := 0, flag := "PUT" } else s
    else s
  | none => s

/-- The inputs of the TF backward induction.  The holder/issuer
position is deliberately *not* among them: the source reads it only
when signing the aggregated result. -/
structure TFParams where
  S0 : ℝ
  u : ℝ
  d : ℝ
  dt : ℝ
  secType : SecurityType
  partType : ParticipationType
  cap : Option ℝ
  face : ℝ
  redemption : ℝ
  cf : ℝ
  ratio : ℕ → ℝ
  rf : List ℝ
  cs : List ℝ
  canC : ℕ → Bool
  canP : ℕ → Bool
  callP : Option ℝ
  putP : Option ℝ
  N : ℕ

/-- CRR share price at node `(t, i)`. -/
noncomputable def TFParams.S (P : TFParams) (t i : ℕ) : ℝ :=
  P.S0 * P.u ^ i * P.d ^ (t - i)

/-- Terminal condition at `t = N`: redeem, convert, or (for a
participating RCPS) the capped double-dip against simple
conversion. -/
noncomputable def tfTerminalNode (P : TFParams) (i : ℕ) : NodeState :=
  let conv_base := P.S P.N i * P.ratio P.N
  let redeem_val := P.redemption + P.cf
  let payoff_hold := redeem_val
  let payoff_conv :=
    if P.secType = SecurityType.RCPS ∧ P.partType = ParticipationType.PARTICIPATING then
      let dd0 := redeem_val + conv_base
      let dd := match P.cap with
        | some cm => if cm ≠ 0 then min dd0 (P.face * cm) else dd0
        | none => dd0
      max dd conv_base
    else conv_base
  if payoff_hold < payoff_conv then
    { V := payoff_conv, D := 0, E := payoff_conv,
      flag := if P.partType = ParticipationType.PARTICIPATING then "MAT_PARTICIPATE"
        else "MAT_CONVERT" }
  else { V := payoff_hold, D := payoff_hold, E := 0, flag := "MAT_REDEEM" }

/-- The backward induction, indexed by the number `k` of steps walked
back from maturity: `tfLat P k i` is the node at `(t, i)` with
`t = N - k`.  Each non-terminal node rolls the children back under the
risk-neutral weight, discounts the debt leg on the risky curve and the
equity leg on the risk-free curve, adds the periodic cash flow to the
debt leg, and runs the conversion / call / put cascade. -/
noncomputable def tfLat (P : TFParams) : ℕ → ℕ → NodeState
  | 0, i => tfTerminalNode P i
  | k + 1, i =>
    let t := P.N - (k + 1)
    let r := P.rf.getD t 0
    let csp := P.cs.getD t 0
    let q := (Real.exp (r * P.dt) - P.d) / (P.u - P.d)
    let df_rf := Real.exp (-(r * P.dt))
    let df_risky := Real.exp (-((r + csp) * P.dt))
    let E_D := q * (tfLat P k (i + 1)).D + (1 - q) * (tfLat P k i).D
    let E_E := q * (tfLat P k (i + 1)).E + (1 - q) * (tfLat P k i).E
    let D_cont := E_D * df_risky + P.cf
    let E_cont := E_E * df_rf
    let conv := P.S t i * P.ratio t
    applyPut (P.canP t) P.putP
      (applyCall (P.canC t) P.callP conv
        (applyConversion conv { V := D_cont + E_cont, D := D_cont, E := E_cont, flag := "HOLD" }))

/-- Host contract value: pure DCF of the periodic cash flows and the
redemption on the accumulated risky discount factors. -/
noncomputable def hostDCF (rf cs : List ℝ) (dt c R : ℝ) (N : ℕ) : ℝ :=
  let res := (List.range N).foldl
    (fun acc t =>
      let step_df := Real.exp (-((rf.getD t 0 + cs.getD t 0) * dt))
      (acc.1 + c * (acc.2 * step_df), acc.2 * step_df))
    ((0 : ℝ), (1 : ℝ))
  res.1 + R * res.2

/-- One sampled lattice-node log row. -/
structure NodeLogRow where
  t : ℕ
  i : ℕ
  date : CalDate
  node_id : String
  S_ti : ℝ
  D_ti : ℝ
  E_ti : ℝ
  V_ti : ℝ
  event_flag : String
  q_up : ℝ
  rf_t : ℝ
  cs_t : ℝ
  conversion_price_eff : ℝ

/-- The `meta` block of a pricing result. -/
structure PricingMeta where
  dt : ℝ
  u : ℝ
  d : ℝ
  N : ℕ
  valuation_date : CalDate
  maturity_date : CalDate
  used_curve_source : Option String
  eff_cp_final : Option ℝ

/-- `PricingResult` as returned by the engine. -/
structure PricingResult where
  fair_value_total : ℝ
  fair_value_per_share : Option ℝ
  fair_value_host : ℝ
  fair_value_deriv : ℝ
  fair_value_deriv_asset : ℝ
  fair_value_deriv_liab : ℝ
  eso_val_per_option : Option ℝ
  tf_debt_component : ℝ
  tf_equity_component : ℝ
  node_logs : List NodeLogRow
  meta : PricingMeta

/-- The TF parameter block assembled by `calculateTF` from a security
and the precomputed grid, rate arrays and CRR parameters. -/
noncomputable def tfParamsOf (sec : SecuritySchema) (time_grid : List TimeStep)
    (rf_t cs_t : List ℝ) (dt u d : ℝ) (N : ℕ) : TFParams :=
  let cp_list := cpSchedule sec.anti_dilution_type sec.refixing_floor_price
    sec.reset_events sec.conversion_price time_grid
  { S0 := sec.share_price_current, u := u, d := d, dt := dt,
    secType := sec.security_type,
    partType := sec.participation_type,
    cap := sec.participation_cap_multiple,
    face := unitFaceValue sec,
    redemption := unitRedemptionValue sec,
    cf := unitPeriodicCF sec dt,
    ratio := effConvRatio sec (fun t => cp_list.getD t sec.conversion_price),
    rf := rf_t, cs := cs_t,
    canC := fun t => canCallAt sec (time_grid.getD t default).date,
    canP := fun t => canPutAt sec (time_grid.getD t default).date,
    callP := sec.call_price, putP := sec.put_price, N := N }

/-- `calculateTF`: the full TF pricing of one security. -/
noncomputable def calculateTF (sec : SecuritySchema) (time_grid : List TimeStep)
    (rf_t cs_t : List ℝ) (dt u d : ℝ) (N : ℕ) : PricingResult :=
  let P := tfParamsOf sec time_grid rf_t cs_t dt u d N
  let cp_list := cpSchedule sec.anti_dilution_type sec.refixing_floor_price
    sec.reset_events sec.conversion_price time_grid
  let cp_at := fun t => cp_list.getD t sec.conversion_price
  let root := tfLat P N 0
  let hybrid_val_unit := root.D + root.E
  let host_val_unit := hostDCF rf_t cs_t dt P.cf P.redemption N
  let deriv_val_unit := hybrid_val_unit - host_val_unit
  let total_hybrid_long := if sec.security_type = SecurityType.CB then hybrid_val_unit
    else hybrid_val_unit * sec.num_issued_shares
  let total_host_long := if sec.security_type = SecurityType.CB then host_val_unit
    else host_val_unit * sec.num_issued_shares
  let total_deriv_long := if sec.security_type = SecurityType.CB then deriv_val_unit
    else deriv_val_unit * sec.num_issued_shares
  let sign : ℝ := if sec.position = PositionType.ISSUER then -1 else 1
  let node_logs := (List.range (min N 5 + 1)).flatMap (fun t =>
    (List.range (t + 1)).map (fun i =>
      { t := t, i := i,
        date := (time_grid.getD t default).date,
        node_id := "t" ++ Nat.repr t ++ "_i" ++ Nat.repr i,
        S_ti := P.S t i,
        D_ti := (tfLat P (N - t) i).D,
        E_ti := (tfLat P (N - t) i).E,
        V_ti := (tfLat P (N - t) i).D + (tfLat P (N - t) i).E,
        event_flag := (tfLat P (N - t) i).flag,
        q_up := 0,
        rf_t := if t < N then rf_t.getD t 0 else 0,
        cs_t := 0,
        conversion_price_eff := cp_at t }))
  { fair_value_total := total_hybrid_long * sign,
    fair_value_per_share := if sec.security_type = SecurityType.CB then none
      else some (hybrid_val_unit * sign),
    fair_value_host := total_host_long * sign,
    fair_value_deriv := total_deriv_long * sign,
    fair_value_deriv_asset := max (total_deriv_long * sign) 0,
    fair_value_deriv_liab := max (-(total_deriv_long * sign)) 0,
    eso_val_per_option := none,
    tf_debt_component := root.D,
    tf_equity_component := root.E,
    node_logs := node_logs,
    meta :=
      { dt := dt, u := u, d := d, N := N,
        valuation_date := sec.valuation_date, maturity_date := sec.maturity_date,
        used_curve_source := some (if sec.stepwise_risk_free_rates.isSome
          then "Bootstrapped Curve" else "Flat Rate"),
        eff_cp_final := some (cp_at N) } }

/-! ### The ESO engine -/

/-- The inputs of the ESO backward induction. -/
structure ESOParams where
  S0 : ℝ
  u : ℝ
  d : ℝ
  dt : ℝ
  strike : ℝ
  multiple : ℝ
  survival : ℝ
  rf : List ℝ
  vested : ℕ → Bool
  N : ℕ

/-- CRR share price at node `(t, i)`. -/
noncomputable def ESOParams.S (P : ESOParams) (t i : ℕ) : ℝ :=
  P.S0 * P.u ^ i * P.d ^ (t - i)

/-- The ESO backward induction (single equity leg), indexed like
`tfLat` by steps walked back from maturity.  Early exercise is gated
by vesting and the suboptimal-exercise multiple; the per-step survival
factor multiplies every node value after the decision. -/
noncomputable def esoLat (P : ESOParams) : ℕ → ℕ → ℝ
  | 0, i => max (P.S P.N i - P.strike) 0
  | k + 1, i =>
    let t := P.N - (k + 1)
    let r := P.rf.getD t 0
    let q := (Real.exp (r * P.dt) - P.d) / (P.u - P.d)
    let df := Real.exp (-(r * P.dt))
    let continuation := (q * esoLat P k (i + 1) + (1 - q) * esoLat P k i) * df
    let S_ti := P.S t i
    let val :=
      if P.vested t then
        let intrinsic := max (S_ti - P.strike) 0
        if P.multiple * P.strike ≤ S_ti ∧ continuation < intrinsic then intrinsic
        else continuation
      else continuation
    val * P.survival

/-- The ESO parameter block assembled by `calculateESO`. -/
noncomputable def esoParamsOf (sec : SecuritySchema) (time_grid : List TimeStep)
    (rf_t : List ℝ) (dt u d : ℝ) (N : ℕ) : ESOParams :=
  let vestingEnd := sec.vesting_end_date.getD sec.maturity_date
  { S0 := sec.share_price_current, u := u, d := d, dt := dt,
    strike := sec.strike_price.getD 0,
    multiple := sec.early_exercise_multiple.getD 1000,
    survival := Real.exp (-(sec.employee_exit_rate.getD 0 * dt)),
    rf := rf_t,
    vested := fun t => decide (vestingEnd ≤ (time_grid.getD t default).date),
    N := N }

/-- `calculateESO`: the ESO pricing of one security.  (The source also
keeps a per-node flag matrix; it is dead for the returned result —
`node_logs` is the empty array — and is not modelled.) -/
noncomputable def calculateESO (sec : SecuritySchema) (time_grid : List TimeStep)
    (rf_t : List ℝ) (dt u d : ℝ) (N : ℕ) : PricingResult :=
  let P := esoParamsOf sec time_grid rf_t dt u d N
  let V_per_option_long := esoLat P N 0
  let V_total_long := V_per_option_long * sec.num_options.getD 1
  let sign : ℝ := if sec.position = PositionType.ISSUER then -1 else 1
  let V_total := V_total_long * sign
  let V_per_opt := V_per_option_long * sign
  { fair_value_total := V_total,
    fair_value_per_share := some V_per_opt,
    fair_value_host := 0,
    fair_value_deriv := V_total,
    fair_value_deriv_asset := if 0 < V_total then V_total else 0,
    fair_value_deriv_liab := if V_total < 0 then -V_total else 0,
    eso_val_per_option := some V_per_opt,
    tf_debt_component := 0,
    tf_equity_component := V_per_option_long,
    node_logs := [],
    meta :=
      { dt := dt, u := u, d := d, N := N,
        valuation_date := sec.valuation_date, maturity_date := sec.maturity_date,
        used_curve_source := some (if sec.stepwise_risk_free_rates.isSome
          then "Bootstrapped Curve" else "Flat Rate"),
        eff_cp_final := none } }

/-! ### The engine entry point -/

/-- The all-zero result of the defensive `N ≤ 0` branch. -/
noncomputable def zeroResult (sec : SecuritySchema) : PricingResult :=
  { fair_value_total := 0, fair_value_per_share := none, fair_value_host := 0,
    fair_value_deriv := 0, fair_value_deriv_asset := 0, fair_value_deriv_liab := 0,
    eso_val_per_option := none, tf_debt_component := 0, tf_equity_component := 0,
    node_logs := [],
    meta :=
      { dt := 0, u := 0, d := 0, N := 0, valuation_date := sec.valuation_date,
        maturity_date := sec.maturity_date, used_curve_source := none,
        eff_cp_final := none } }

/-- The weekly time grid used by the engine for a security. -/
noncomputable def engineGrid (sec : SecuritySchema) : List TimeStep :=
  generateTimeGrid sec.valuation_date sec.maturity_date

/-- `N = time_grid.length - 1`. -/
noncomputable def engineN (sec : SecuritySchema) : ℕ := (engineGrid sec).length - 1

/-- `dt = T / N` with `T` the final grid entry's year fraction. -/
noncomputable def engineDt (sec : SecuritySchema) : ℝ :=
  ((engineGrid sec).getD (engineN sec) default).t_years / (engineN sec : ℝ)

/-- CRR up factor `u = exp(σ·√dt)`. -/
noncomputable def engineU (sec : SecuritySchema) : ℝ :=
  Real.exp (sec.volatility * Real.sqrt (engineDt sec))

/-- CRR down factor `d = 1/u`. -/
noncomputable def engineDown (sec : SecuritySchema) : ℝ := 1 / engineU sec

/-- The stepwise risk-free rates: user-supplied when long enough
(truncated to `N`), else the flat fallback replicated. -/
noncomputable def engineRf (sec : SecuritySchema) : List ℝ :=
  match sec.stepwise_risk_free_rates with
  | some l => if engineN sec ≤ l.length then l.take (engineN sec)
      else List.replicate (engineN sec) sec.risk_free_rate
  | none => List.replicate (engineN sec) sec.risk_free_rate

/-- The stepwise credit spreads (same fallback shape). -/
noncomputable def engineCs (sec : SecuritySchema) : List ℝ :=
  match sec.stepwise_credit_spreads with
  | some l => if engineN sec ≤ l.length then l.take (engineN sec)
      else List.replicate (engineN sec) sec.credit_spread
  | none => List.replicate (engineN sec) sec.credit_spread

/-- `runPricingEngine`: build the weekly grid, the CRR parameters and
the stepwise rate arrays, then dispatch on the security type. -/
noncomputable def runPricingEngine (sec : SecuritySchema) : PricingResult :=
  if engineN sec = 0 then zeroResult sec
  else if sec.security_type = SecurityType.ESO then
    calculateESO sec (engineGrid sec) (engineRf sec) (engineDt sec) (engineU sec)
      (engineDown sec) (engineN sec)
  else
    calculateTF sec (engineGrid sec) (engineRf sec) (engineCs sec) (engineDt sec)
      (engineU sec) (engineDown sec) (engineN sec)

/-- The while-loop is entered at least once when valuation precedes
maturity, so the loop body list is non-empty. -/
theorem gridLoop_ne_nil (valDate matDate current : CalDate) (step : ℕ)
    (h : current < matDate) : gridLoop valDate matDate current step ≠ [] := by
  rw [gridLoop, dif_pos h]
  simp

/-- The generated grid always has at least two entries (the degenerate
branch returns exactly two; otherwise the loop emits at least the
valuation-date step and the maturity stub is appended), hence
`N = length - 1 ≥ 1` and the engine's `N ≤ 0` branch is dead code. -/
theorem generateTimeGrid_length (valDate matDate : CalDate) :
    2 ≤ (generateTimeGrid valDate matDate).length := by
  unfold generateTimeGrid
  by_cases h : matDate ≤ valDate
  · simp [h]
  · simp only [if_neg h]
    have hne : gridLoop valDate matDate valDate 0 ≠ [] :=
      gridLoop_ne_nil _ _ _ _ (lt_of_not_le h)
    have hlen : 1 ≤ (gridLoop valDate matDate valDate 0).length :=
      List.length_pos.mpr hne
    simp only [List.length_append, List.length_cons, List.length_nil]
    omega

theorem engineN_pos (sec : SecuritySchema) : 1 ≤ engineN sec := by
  have := generateTimeGrid_length sec.valuation_date sec.maturity_date
  unfold engineN engineGrid
  omega

/-- The engine reduced on a non-ESO security: the `N ≤ 0` branch is
unreachable and the TF path is taken. -/
theorem runPricingEngine_eq_TF (sec : SecuritySchema)
    (hty : sec.security_type ≠ SecurityType.ESO) :
    runPricingEngine sec =
      calculateTF sec (engineGrid sec) (engineRf sec) (engineCs sec) (engineDt sec)
        (engineU sec) (engineDown sec) (engineN sec) := by
  have h1 : ¬ engineN sec = 0 := by have := engineN_pos sec; omega
  rw [runPricingEngine, if_neg h1, if_neg hty]

/-- The engine reduced on an ESO security. -/
theorem runPricingEngine_eq_ESO (sec : SecuritySchema)
    (hty : sec.security_type = SecurityType.ESO) :
    runPricingEngine sec =
      calculateESO sec (engineGrid sec) (engineRf sec) (engineDt sec) (engineU sec)
        (engineDown sec) (engineN sec) := by
  have h1 : ¬ engineN sec = 0 := by have := engineN_pos sec; omega
  rw [runPricingEngine, if_neg h1, if_pos hty]

/-! ### Claim C1 -/

/-- C1: for every security priced by the engine (TF or ESO alike, and
even on the defensive all-zero branch), the returned result satisfies
`fair_value_total = fair_value_host + fair_value_deriv` exactly (in
exact arithmetic the derivative leg is defined as hybrid minus host
and all three totals carry the same scaling and position sign). -/
theorem C1_theorem (sec : SecuritySchema) :
    (runPricingEngine sec).fair_value_total =
      (runPricingEngine sec).fair_value_host + (runPricingEngine sec).fair_value_deriv := by
  unfold runPricingEngine
  split_ifs with h1 h2
  · simp [zeroResult]
  · simp [calculateESO]
  · simp only [calculateTF]
    split_ifs <;> ring

/-! ### Claim C8 -/

/-- The deal-level aggregate record (`DealResult`). -/
structure DealResult where
  deal_total_value : ℝ
  deal_price_per_share : ℝ
  deal_total_host : ℝ
  deal_total_deriv : ℝ
  deal_total_asset : ℝ
  deal_total_liab : ℝ
  deal_total_deriv_asset : ℝ
  deal_total_deriv_liab : ℝ

/-- The accumulator of the aggregation `reduce`. -/
structure AggAcc where
  total : ℝ
  host : ℝ
  deriv : ℝ
  asset : ℝ
  liab : ℝ
  deriv_asset : ℝ
  deriv_liab : ℝ

/-- One step of the aggregation `reduce` over priced securities. -/
noncomputable def aggStep (acc : AggAcc) (curr : PricingResult) : AggAcc :=
  { total := acc.total + curr.fair_value_total,
    host := acc.host + curr.fair_value_host,
    deriv := acc.deriv + curr.fair_value_deriv,
    asset := acc.asset + (if 0 < curr.fair_value_total then curr.fair_value_total else 0),
    liab := acc.liab + (if curr.fair_value_total < 0 then -curr.fair_value_total else 0),
    deriv_asset := acc.deriv_asset + curr.fair_value_deriv_asset,
    deriv_liab := acc.deriv_liab + curr.fair_value_deriv_liab }

/-- `calculateDeal`'s aggregation over the successfully priced
securities, and the assembled `DealResult`. -/
noncomputable def calculateDeal (underlying_num_shares : ℝ)
    (results : List PricingResult) : DealResult :=
  let agg := results.foldl aggStep
    { total := 0, host := 0, deriv := 0, asset := 0, liab := 0,
      deriv_asset := 0, deriv_liab := 0 }
  { deal_total_value := agg.total,
    deal_price_per_share := if 0 < underlying_num_shares
      then agg.total / underlying_num_shares else 0,
    deal_total_host := agg.host,
    deal_total_deriv := agg.deriv,
    deal_total_asset := agg.asset,
    deal_total_liab := agg.liab,
    deal_total_deriv_asset := agg.deriv_asset,
    deal_total_deriv_liab := agg.deriv_liab }

theorem aggFold_asset_sub_liab (results : List PricingResult) :
    ∀ acc : AggAcc,
      (results.foldl aggStep acc).asset - (results.foldl aggStep acc).liab -
          (results.foldl aggStep acc).total =
        acc.asset - acc.liab - acc.total := by
  induction results with
  | nil => intro acc; simp
  | cons c l ih =>
    intro acc
    rw [List.foldl_cons, ih]
    unfold aggStep
    rcases lt_trichotomy c.fair_value_total 0 with hneg | hzero | hpos
    · rw [if_neg (by linarith), if_pos hneg]
      ring
    · rw [if_neg (by simp [hzero]), if_neg (by simp [hzero])]
      rw [hzero]
      ring
    · rw [if_pos hpos, if_neg (by linarith)]
      ring

/-- C8: for every deal, the aggregated result satisfies
`deal_total_asset - deal_total_liab = deal_total_value`, where the
asset leg sums the positive signed totals and the liability leg the
negated negative ones. -/
theorem C8_theorem (underlying_num_shares : ℝ) (results : List PricingResult) :
    (calculateDeal underlying_num_shares results).deal_total_asset -
        (calculateDeal underlying_num_shares results).deal_total_liab =
      (calculateDeal underlying_num_shares results).deal_total_value := by
  unfold calculateDeal
  have h := aggFold_asset_sub_liab results
    { total := 0, host := 0, deriv := 0, asset := 0, liab := 0,
      deriv_asset := 0, deriv_liab := 0 }
  simp only at h ⊢
  linarith

/-! ### Claim C10 -/

/-- C10: for a non-ESO (TF) security the reported `tf_debt_component`
and `tf_equity_component` are exactly the root node's long debt and
equity legs `D[0][0]`, `E[0][0]` per calculation unit — identical for
HOLDER and ISSUER positions — and
`(tf_debt_component + tf_equity_component) × shares (1 for CB) × sign`
reproduces `fair_value_total`. -/
theorem C10_theorem (sec : SecuritySchema) (hty : sec.security_type ≠ SecurityType.ESO)
    (p : PositionType) :
    (runPricingEngine { sec with position := p }).tf_debt_component =
        (tfLat (tfParamsOf sec (engineGrid sec) (engineRf sec) (engineCs sec)
          (engineDt sec) (engineU sec) (engineDown sec) (engineN sec))
          (engineN sec) 0).D ∧
    (runPricingEngine { sec with position := p }).tf_equity_component =
        (tfLat (tfParamsOf sec (engineGrid sec) (engineRf sec) (engineCs sec)
          (engineDt sec) (engineU sec) (engineDown sec) (engineN sec))
          (engineN sec) 0).E ∧
    ((runPricingEngine sec).tf_debt_component + (runPricingEngine sec).tf_equity_component) *
        (if sec.security_type = SecurityType.CB then 1 else sec.num_issued_shares) *
        (if sec.position = PositionType.ISSUER then -1 else 1) =
      (runPricingEngine sec).fair_value_total := by
  have hty' : ({ sec with position := p } : SecuritySchema).security_type ≠
      SecurityType.ESO := hty
  rw [runPricingEngine_eq_TF _ hty', runPricingEngine_eq_TF _ hty]
  refine ⟨rfl, rfl, ?_⟩
  simp only [calculateTF]
  split_ifs <;> ring

/-- A concrete RCPS (the repository's default template terms on a
one-week grid) used as witness input. -/
noncomputable def sampleRCPS : SecuritySchema :=
  { security_type := SecurityType.RCPS,
    position := PositionType.HOLDER,
    total_issue_price := 1000000000,
    num_issued_shares := 50000,
    share_price_current := 20000,
    valuation_date := 0,
    maturity_date := 7,
    coupon_rate := 0.02,
    dividend_rate := 0,
    repayment_premium_rate := some 0.05,
    conversion_price := 20000,
    conversion_ratio := none,
    anti_dilution_type := AntiDilutionType.NONE,
    refixing_floor_price := none,
    reset_events := [],
    participation_type := ParticipationType.NON_PARTICIPATING,
    participation_cap_multiple := none,
    volatility := 0.35,
    risk_free_rate := 0.035,
    credit_spread := 0.02,
    stepwise_risk_free_rates := none,
    stepwise_credit_spreads := none,
    has_call_option := false,
    call_price := none, call_start_date := none, call_end_date := none,
    has_put_option := false,
    put_price := none, put_start_date := none, put_end_date := none,
    num_options := none, strike_price := none, vesting_end_date := none,
    employee_exit_rate := none, early_exercise_multiple := none }

/-- C10 witness: the component identity applied to the concrete sample
RCPS with the ISSUER flip. -/
theorem C10_witness :
    sampleRCPS.security_type ≠ SecurityType.ESO ∧
      ((runPricingEngine sampleRCPS).tf_debt_component +
          (runPricingEngine sampleRCPS).tf_equity_component) *
        (if sampleRCPS.security_type = SecurityType.CB then 1
          else sampleRCPS.num_issued_shares) *
        (if sampleRCPS.position = PositionType.ISSUER then -1 else 1) =
      (runPricingEngine sampleRCPS).fair_value_total :=
  ⟨by decide, (C10_theorem sampleRCPS (by decide) PositionType.ISSUER).2.2⟩

/-! ### Claim C3 -/

theorem getD_map_const {α : Type*} (l : List α) (c : ℝ) (t : ℕ) :
    (l.map fun _ => c).getD t c = c := by
  induction l generalizing t with
  | nil => simp
  | cons a l ih =>
    cases t with
    | zero => simp
    | succ n => simp only [List.map_cons, List.getD_cons_succ]; exact ih n

/-- A CB whose maturity date equals the valuation date (degenerate
input), with zero rates, no coupon or premium, unit face, and a
conversion price so high that conversion is never attractive. -/
noncomputable def c3Sec : SecuritySchema :=
  { sampleRCPS with
    security_type := SecurityType.CB,
    total_issue_price := 1,
    num_issued_shares := 1,
    share_price_current := 1,
    valuation_date := 0,
    maturity_date := 0,
    coupon_rate := 0,
    repayment_premium_rate := none,
    conversion_price := 1000,
    volatility := 1,
    risk_free_rate := 0,
    credit_spread := 0 }

theorem c3_grid : engineGrid c3Sec =
    [ { step := 0, date := 0, t_years := 0 },
      { step := 1, date := 0, t_years := 0.0027 } ] := by
  show generateTimeGrid 0 0 = _
  rw [generateTimeGrid, if_pos (by norm_num)]

theorem c3_N : engineN c3Sec = 1 := by
  rw [engineN, c3_grid]
  rfl

theorem c3_dt : engineDt c3Sec = 0.0027 := by
  rw [engineDt, c3_grid, c3_N]
  norm_num

theorem c3_u_bounds : 1 ≤ engineU c3Sec ∧ engineU c3Sec ≤ 3 := by
  rw [engineU, c3_dt]
  have h0 : (0:ℝ) ≤ Real.sqrt 0.0027 := Real.sqrt_nonneg _
  have h1 : Real.sqrt 0.0027 ≤ 1 := by
    rw [show (1:ℝ) = Real.sqrt 1 by simp]
    exact Real.sqrt_le_sqrt (by norm_num)
  have hv : c3Sec.volatility = 1 := rfl
  constructor
  · rw [Real.one_le_exp_iff]
    rw [hv]
    linarith
  · calc Real.exp (c3Sec.volatility * Real.sqrt 0.0027)
        ≤ Real.exp 1 := Real.exp_le_exp.mpr (by rw [hv]; linarith)
      _ ≤ 3 := by
          have := Real.exp_one_lt_d9
          linarith

theorem c3_rf : engineRf c3Sec = [0] := by
  rw [show engineRf c3Sec
    = List.replicate (engineN c3Sec) c3Sec.risk_free_rate from rfl, c3_N]
  rfl

theorem c3_cs : engineCs c3Sec = [0] := by
  rw [show engineCs c3Sec
    = List.replicate (engineN c3Sec) c3Sec.credit_spread from rfl, c3_N]
  rfl

/-- The TF parameter block of the C3 counterexample security. -/
noncomputable def c3P : TFParams :=
  tfParamsOf c3Sec (engineGrid c3Sec) (engineRf c3Sec) (engineCs c3Sec) (engineDt c3Sec)
    (engineU c3Sec) (engineDown c3Sec) (engineN c3Sec)

theorem c3_cf : c3P.cf = 0 := by
  show unitPeriodicCF c3Sec (engineDt c3Sec) = 0
  rw [unitPeriodicCF, if_pos (show c3Sec.security_type = SecurityType.CB from rfl)]
  norm_num [show c3Sec.coupon_rate = 0 from rfl,
    show c3Sec.total_issue_price = (1:ℝ) from rfl]

theorem c3_redemption : c3P.redemption = 1 := by
  show unitRedemptionValue c3Sec = 1
  rw [unitRedemptionValue, unitFaceValue,
    if_pos (show c3Sec.security_type = SecurityType.CB from rfl)]
  norm_num [show c3Sec.repayment_premium_rate = none from rfl,
    show c3Sec.total_issue_price = (1:ℝ) from rfl]

theorem c3_cp_list : cpSchedule c3Sec.anti_dilution_type c3Sec.refixing_floor_price
    c3Sec.reset_events c3Sec.conversion_price (engineGrid c3Sec)
    = (engineGrid c3Sec).map (fun _ => c3Sec.conversion_price) := by
  rw [cpSchedule, if_neg]
  simp [show c3Sec.anti_dilution_type = AntiDilutionType.NONE from rfl]

theorem c3_ratio (t : ℕ) : c3P.ratio t = 1 / 1000 := by
  show unitFaceValue c3Sec / ((cpSchedule c3Sec.anti_dilution_type
    c3Sec.refixing_floor_price c3Sec.reset_events c3Sec.conversion_price
    (engineGrid c3Sec)).getD t c3Sec.conversion_price) = 1 / 1000
  rw [c3_cp_list, getD_map_const, unitFaceValue,
    if_pos (show c3Sec.security_type = SecurityType.CB from rfl)]
  norm_num [show c3Sec.conversion_price = (1000:ℝ) from rfl,
    show c3Sec.total_issue_price = (1:ℝ) from rfl]

theorem applyCall_none (canC : Bool) (conv : ℝ) (s : NodeState) :
    applyCall canC none conv s = s := rfl

theorem applyPut_none (canP : Bool) (s : NodeState) : applyPut canP none s = s := rfl

theorem c3P_N : c3P.N = 1 := c3_N

theorem c3P_rf : c3P.rf = [0] := c3_rf

theorem c3P_cs : c3P.cs = [0] := c3_cs

theorem c3P_call : c3P.callP = none := rfl

theorem c3P_put : c3P.putP = none := rfl

theorem c3P_S0 : c3P.S0 = 1 := rfl

theorem c3_terminal (i : ℕ) (hi : i ≤ 1) :
    tfTerminalNode c3P i = { V := 1, D := 1, E := 0, flag := "MAT_REDEEM" } := by
  have hu1 := c3_u_bounds.1
  have hu3 := c3_u_bounds.2
  have hupos : (0:ℝ) < engineU c3Sec := lt_of_lt_of_le one_pos hu1
  have hSle : c3P.S c3P.N i ≤ 3 := by
    show c3Sec.share_price_current * engineU c3Sec ^ i * engineDown c3Sec ^ (c3P.N - i) ≤ 3
    rw [show c3Sec.share_price_current = (1:ℝ) from rfl, one_mul, c3P_N]
    interval_cases i
    · rw [pow_zero, one_mul, pow_one, engineDown]
      have hle : 1 / engineU c3Sec ≤ 1 := by
        rw [div_le_one hupos]
        exact hu1
      linarith
    · rw [pow_one, Nat.sub_self, pow_zero, mul_one]
      exact hu3
  have hSpos : 0 ≤ c3P.S c3P.N i := by
    show 0 ≤ c3Sec.share_price_current * engineU c3Sec ^ i * engineDown c3Sec ^ (c3P.N - i)
    have hdpos : (0:ℝ) < engineDown c3Sec := by
      rw [engineDown]
      positivity
    rw [show c3Sec.share_price_current = (1:ℝ) from rfl]
    positivity
  simp only [tfTerminalNode, c3_ratio, c3_redemption, c3_cf]
  rw [if_neg (show ¬ (c3P.secType = SecurityType.RCPS ∧
    c3P.partType = ParticipationType.PARTICIPATING) from by
      simp [show c3P.secType = SecurityType.CB from rfl])]
  rw [if_neg (show ¬ ((1:ℝ) + 0 < c3P.S c3P.N i * (1 / 1000)) from by nlinarith)]
  norm_num

theorem c3_root : tfLat c3P 1 0 = { V := 1, D := 1, E := 0, flag := "HOLD" } := by
  have ht0 := c3_terminal 0 (by norm_num)
  have ht1 := c3_terminal 1 (by norm_num)
  show tfLat c3P (0 + 1) 0 = _
  simp only [tfLat, Nat.zero_add, c3P_N, Nat.sub_self, c3P_rf, c3P_cs, c3P_call, c3P_put,
    List.getD_cons_zero, ht0, ht1, c3_ratio, c3_cf, applyCall_none, applyPut_none]
  rw [applyConversion, if_neg]
  · norm_num [TFParams.S, c3P_S0, Real.exp_zero]
  · norm_num [TFParams.S, c3P_S0, Real.exp_zero]

/-- C3 counterexample: a CB with maturity equal to the valuation date
is priced on the trivial one-step grid (`N = 1`), not on the all-zero
`N ≤ 0` branch: its fair value is the discounted redemption, which is
non-zero. -/
theorem C3_counterexample :
    c3Sec.maturity_date ≤ c3Sec.valuation_date ∧
      (runPricingEngine c3Sec).fair_value_total ≠ 0 := by
  refine ⟨le_refl 0, ?_⟩
  rw [runPricingEngine_eq_TF c3Sec (by decide)]
  simp only [calculateTF]
  rw [show tfParamsOf c3Sec (engineGrid c3Sec) (engineRf c3Sec) (engineCs c3Sec)
      (engineDt c3Sec) (engineU c3Sec) (engineDown c3Sec) (engineN c3Sec) = c3P from rfl]
  rw [c3_N, c3_root]
  rw [if_pos (show c3Sec.security_type = SecurityType.CB from rfl)]
  rw [if_neg (show ¬ c3Sec.position = PositionType.ISSUER from by decide)]
  norm_num

/-- C3 (amended): a maturity at or before the valuation date yields
the trivial two-point grid (year fractions 0 and 0.0027), so
`N = 1`: the engine's all-zero `N ≤ 0` branch is *not* taken — the
security is priced on a one-step lattice with `dt = 0.0027`. -/
theorem C3_theorem (valDate matDate : CalDate) (h : matDate ≤ valDate) :
    generateTimeGrid valDate matDate =
      [ { step := 0, date := valDate, t_years := 0 },
        { step := 1, date := valDate, t_years := 0.0027 } ] ∧
      (generateTimeGrid valDate matDate).length - 1 = 1 := by
  rw [generateTimeGrid, if_pos h]
  exact ⟨rfl, rfl⟩

/-- C3 witness: the degenerate grid at concrete dates 5 (valuation)
and 3 (maturity). -/
theorem C3_witness :
    (3:CalDate) ≤ 5 ∧
      (generateTimeGrid 5 3 =
        [ { step := 0, date := 5, t_years := 0 },
          { step := 1, date := 5, t_years := 0.0027 } ] ∧
        (generateTimeGrid 5 3).length - 1 = 1) :=
  ⟨by norm_num, C3_theorem 5 3 (by norm_num)⟩

/-! ### Claim C7 -/

/-- An ESO variant of the sample security (strike, options, exit rate
and exercise multiple set). -/
noncomputable def c7Eso : SecuritySchema :=
  { sampleRCPS with
    security_type := SecurityType.ESO,
    num_options := some 10000,
    strike_price := some 20000,
    employee_exit_rate := some 0.05,
    early_exercise_multiple := some 2 }

/-- C7 counterexample: for an ESO the engine returns `node_logs = []`,
so the claimed entry for node `(0, 0)` (required since
`min(N, 5) ≥ 0`) does not exist. -/
theorem C7_counterexample :
    ¬ ∃ row ∈ (runPricingEngine c7Eso).node_logs, row.t = 0 ∧ row.i = 0 := by
  rw [runPricingEngine_eq_ESO c7Eso rfl]
  intro h
  simp only [calculateESO] at h
  obtain ⟨row, hrow, -⟩ := h
  exact absurd hrow (List.not_mem_nil row)

/-- C7 (amended): for non-ESO (TF) securities `node_logs` contains
exactly the nodes `(t, i)` with `t ≤ min(N, 5)`, `i ≤ t`, in order;
for ESO securities `node_logs` is empty. -/
theorem C7_theorem (sec : SecuritySchema) :
    (sec.security_type = SecurityType.ESO → (runPricingEngine sec).node_logs = []) ∧
    (sec.security_type ≠ SecurityType.ESO →
      ((runPricingEngine sec).node_logs).map (fun row => (row.t, row.i)) =
        (List.range (min (engineN sec) 5 + 1)).flatMap (fun t =>
          (List.range (t + 1)).map (fun i => (t, i)))) := by
  constructor
  · intro h
    rw [runPricingEngine_eq_ESO sec h]
    rfl
  · intro h
    rw [runPricingEngine_eq_TF sec h]
    simp only [calculateTF, List.map_flatMap, List.map_map]
    rfl

/-- C7 witness: the amended statement applied to the concrete ESO (no
log rows) and to the concrete RCPS (exactly the sampled triangle). -/
theorem C7_witness :
    (runPricingEngine c7Eso).node_logs = [] ∧
      ((runPricingEngine sampleRCPS).node_logs).map (fun row => (row.t, row.i)) =
        (List.range (min (engineN sampleRCPS) 5 + 1)).flatMap (fun t =>
          (List.range (t + 1)).map (fun i => (t, i))) :=
  ⟨(C7_theorem c7Eso).1 rfl, (C7_theorem sampleRCPS).2 (by decide)⟩

/-! ### Claim C6 -/

/-- C6: at a node whose step date lies in the issuer call window
(`canCallAt` true, which forces a non-null call price), with `s` the
node state after the holder's voluntary-conversion decision: when
`max(call_price, conv) < s.V` the call fires and the node becomes
`(D = 0, E = conv)` flagged `CALLED_FORCE_CONV` if `conv > call_price`
and `(D = call_price, E = 0)` flagged `CALLED` otherwise, the node
value dropping to `max(call_price, conv)`; when
`max(call_price, conv) ≥ s.V` the call leaves the node unchanged. -/
theorem C6_theorem (sec : SecuritySchema) (dd : CalDate) (hc : canCallAt sec dd = true)
    (cprice : ℝ) (hcp : sec.call_price = some cprice) (conv : ℝ) (s0 : NodeState) :
    (max cprice conv < (applyConversion conv s0).V →
      (conv ≤ cprice →
        applyCall (canCallAt sec dd) sec.call_price conv (applyConversion conv s0) =
          { V := max cprice conv, D := cprice, E := 0, flag := "CALLED" }) ∧
      (cprice < conv →
        applyCall (canCallAt sec dd) sec.call_price conv (applyConversion conv s0) =
          { V := max cprice conv, D := 0, E := conv, flag := "CALLED_FORCE_CONV" })) ∧
    ((applyConversion conv s0).V ≤ max cprice conv →
      applyCall (canCallAt sec dd) sec.call_price conv (applyConversion conv s0) =
        applyConversion conv s0) := by
  have hred : ∀ s : NodeState, applyCall true (some cprice) conv s =
      if max cprice conv < s.V then
        (if cprice < conv then
          { V := max cprice conv, D := 0, E := conv, flag := "CALLED_FORCE_CONV" }
        else { V := max cprice conv, D := cprice, E := 0, flag := "CALLED" })
      else s := fun s => rfl
  rw [hc, hcp, hred]
  constructor
  · intro hlt
    constructor
    · intro hle
      rw [if_pos hlt, if_neg (not_lt.mpr hle)]
    · intro hgt
      rw [if_pos hlt, if_pos hgt]
  · intro hge
    rw [if_neg (not_lt.mpr hge)]

/-- Concrete call-window security for the C6 witness: window open from
day 0 with a missing end date (defaulting to the maturity, day 7). -/
noncomputable def c6Sec : SecuritySchema :=
  { sampleRCPS with
    has_call_option := true,
    call_price := some 120,
    call_start_date := some 0 }

/-- C6 witness: inside the window on day 3, a holder payoff of
`max(120, 1) = 120` at a node worth 2 does not trigger the call, so
the node passes through unchanged. -/
theorem C6_witness :
    canCallAt c6Sec 3 = true ∧
      applyCall (canCallAt c6Sec 3) c6Sec.call_price 1
        (applyConversion 1 { V := 2, D := 2, E := 0, flag := "HOLD" }) =
        applyConversion 1 { V := 2, D := 2, E := 0, flag := "HOLD" } :=
  ⟨rfl, (C6_theorem c6Sec 3 rfl 120 rfl 1 { V := 2, D := 2, E := 0, flag := "HOLD" }).2
    (by rw [applyConversion, if_neg (by norm_num)]; norm_num)⟩

/-! ### Claim C9 -/

theorem applyCall_false (callP : Option ℝ) (conv : ℝ) (s : NodeState) :
    applyCall false callP conv s = s := by
  cases callP <;> rfl

theorem applyPut_some_true (p : ℝ) (s : NodeState) :
    applyPut true (some p) s =
      if s.V < p then { V := p, D := p, E := 0, flag := "PUT" } else s := rfl

theorem applyPut_flag (canP : Bool) (putP : Option ℝ) (s : NodeState) :
    (applyPut canP putP s).flag = "PUT" ∨ applyPut canP putP s = s := by
  cases canP with
  | false => cases putP <;> exact Or.inr rfl
  | true =>
    cases putP with
    | none => exact Or.inr rfl
    | some p =>
      rw [applyPut_some_true]
      by_cases h : s.V < p
      · rw [if_pos h]
        exact Or.inl rfl
      · rw [if_neg h]
        exact Or.inr rfl

theorem applyConversion_flag (conv : ℝ) (s : NodeState) :
    (applyConversion conv s).flag = "CONVERT" ∨ applyConversion conv s = s := by
  unfold applyConversion
  by_cases h : s.V < conv
  · rw [if_pos h]
    exact Or.inl rfl
  · rw [if_neg h]
    exact Or.inr rfl

/-- The shape of a non-terminal lattice node: the put applied to the
call applied to the conversion applied to a HOLD-flagged base. -/
theorem tfLat_succ_shape (P : TFParams) (k i : ℕ) :
    ∃ conv s, tfLat P (k + 1) i =
      applyPut (P.canP (P.N - (k + 1))) P.putP
        (applyCall (P.canC (P.N - (k + 1))) P.callP conv (applyConversion conv s)) ∧
      s.flag = "HOLD" :=
  ⟨_, _, rfl, rfl⟩

/-- Without a call window the only flags a TF lattice node can carry
are the terminal flags, HOLD, CONVERT and PUT. -/
theorem tfLat_flag_no_call (P : TFParams) (hC : ∀ t, P.canC t = false) :
    ∀ k i, (tfLat P k i).flag = "MAT_PARTICIPATE" ∨ (tfLat P k i).flag = "MAT_CONVERT" ∨
      (tfLat P k i).flag = "MAT_REDEEM" ∨ (tfLat P k i).flag = "HOLD" ∨
      (tfLat P k i).flag = "CONVERT" ∨ (tfLat P k i).flag = "PUT"
  | 0, i => by
    have hterm : tfLat P 0 i = tfTerminalNode P i := rfl
    rw [hterm]
    simp only [tfTerminalNode, apply_ite NodeState.flag]
    split_ifs <;> simp
  | k + 1, i => by
    obtain ⟨conv, s, heq, hflag⟩ := tfLat_succ_shape P k i
    rw [heq, hC, applyCall_false]
    rcases applyPut_flag (P.canP (P.N - (k + 1))) P.putP (applyConversion conv s)
      with h | h
    · rw [h]
      simp
    · rw [h]
      rcases applyConversion_flag conv s with h2 | h2
      · rw [h2]
        simp
      · rw [h2, hflag]
        simp

/-- C9: for a TF security with the call flag on and a non-null call
price but *no* call start date, the issuer call is never active: the
window test is false at every date, the pricing result coincides with
that of the same security with the call option disabled, and no
lattice node is ever flagged CALLED or CALLED_FORCE_CONV.  The same
date logic disables the holder put when its start date is missing. -/
theorem C9_theorem (sec : SecuritySchema) (hcall : sec.has_call_option = true)
    (hprice : sec.call_price.isSome) (hstart : sec.call_start_date = none) :
    (∀ dd : CalDate, canCallAt sec dd = false) ∧
    (∀ tg rf cs dt u d N, calculateTF sec tg rf cs dt u d N =
      calculateTF { sec with has_call_option := false } tg rf cs dt u d N) ∧
    (∀ tg rf cs dt u d N k i,
      (tfLat (tfParamsOf sec tg rf cs dt u d N) k i).flag ≠ "CALLED" ∧
      (tfLat (tfParamsOf sec tg rf cs dt u d N) k i).flag ≠ "CALLED_FORCE_CONV") ∧
    (sec.put_start_date = none → ∀ dd : CalDate, canPutAt sec dd = false) := by
  have h1 : ∀ dd : CalDate, canCallAt sec dd = false := by
    intro dd
    simp [canCallAt, hstart]
  have h2 : ∀ dd : CalDate,
      canCallAt { sec with has_call_option := false } dd = false := by
    intro dd
    simp [canCallAt]
  have hP : ∀ tg rf cs dt u d N, tfParamsOf sec tg rf cs dt u d N =
      tfParamsOf { sec with has_call_option := false } tg rf cs dt u d N := by
    intro tg rf cs dt u d N
    have hcanc : (fun t => canCallAt sec (tg.getD t default).date)
        = fun t => canCallAt { sec with has_call_option := false }
            (tg.getD t default).date := by
      funext t
      rw [h1, h2]
    unfold tfParamsOf
    rw [hcanc]
    rfl
  refine ⟨h1, ?_, ?_, ?_⟩
  · intro tg rf cs dt u d N
    unfold calculateTF
    rw [hP]
  · intro tg rf cs dt u d N k i
    have hflags := tfLat_flag_no_call (tfParamsOf sec tg rf cs dt u d N)
      (fun t => h1 _) k i
    rcases hflags with h | h | h | h | h | h <;> rw [h] <;> exact ⟨by decide, by decide⟩
  · intro hps dd
    simp [canPutAt, hps]

/-- Concrete security for the C9 witness: call flag on, call price
set, no call start date. -/
noncomputable def c9Sec : SecuritySchema :=
  { sampleRCPS with
    has_call_option := true,
    call_price := some 120 }

/-- C9 witness: the no-call facts instantiated on the concrete
security (window test on day 3, the result equality on the engine's
own grid and rates, the root node's flag, and the put analogue). -/
theorem C9_witness :
    canCallAt c9Sec 3 = false ∧
      calculateTF c9Sec (engineGrid c9Sec) (engineRf c9Sec) (engineCs c9Sec)
          (engineDt c9Sec) (engineU c9Sec) (engineDown c9Sec) (engineN c9Sec) =
        calculateTF { c9Sec with has_call_option := false } (engineGrid c9Sec)
          (engineRf c9Sec) (engineCs c9Sec) (engineDt c9Sec) (engineU c9Sec)
          (engineDown c9Sec) (engineN c9Sec) ∧
      (tfLat (tfParamsOf c9Sec (engineGrid c9Sec) (engineRf c9Sec) (engineCs c9Sec)
          (engineDt c9Sec) (engineU c9Sec) (engineDown c9Sec) (engineN c9Sec))
          (engineN c9Sec) 0).flag ≠ "CALLED" ∧
      canPutAt c9Sec 3 = false := by
  obtain ⟨w1, w2, w3, w4⟩ := C9_theorem c9Sec rfl rfl rfl
  exact ⟨w1 3, w2 _ _ _ _ _ _ _, (w3 _ _ _ _ _ _ _ _ _).1, w4 rfl 3⟩

/-! ### Claim C2 — non-negativity of the lattice legs -/

theorem floorClamp_nonneg (floorP : Option ℝ) {cp1 : ℝ} (h : 0 ≤ cp1) :
    0 ≤ floorClamp floorP cp1 := by
  cases floorP with
  | none => exact h
  | some f =>
    show 0 ≤ if f ≠ 0 ∧ cp1 < f then f else cp1
    by_cases hc : f ≠ 0 ∧ cp1 < f
    · rw [if_pos hc]
      exact le_of_lt (lt_of_le_of_lt h hc.2)
    · rwa [if_neg hc]

theorem applyResetEvent_nonneg (anti : AntiDilutionType) (floorP : Option ℝ) {cp : ℝ}
    (evt : ResetEvent) (hcp : 0 ≤ cp) (hevt : EventAdmissible evt) :
    0 ≤ applyResetEvent anti floorP cp evt := by
  obtain ⟨hp, hn, hso⟩ := hevt
  unfold applyResetEvent
  by_cases hlt : evt.issue_price_new < cp
  · simp only [if_pos hlt]
    have hSO := effectiveSO_pos evt hso
    rcases anti with _ | _ | _
    · exact floorClamp_nonneg _ hcp
    · exact floorClamp_nonneg _ (le_of_lt hp)
    · refine floorClamp_nonneg _ ?_
      have hdiv : 0 ≤ evt.issue_price_new / cp := div_nonneg (le_of_lt hp) hcp
      have hnum : 0 ≤ effectiveSO evt + evt.issue_price_new / cp * evt.issue_shares_new :=
        add_nonneg (le_of_lt hSO) (mul_nonneg hdiv hn)
      have hden : 0 ≤ effectiveSO evt + evt.issue_shares_new :=
        add_nonneg (le_of_lt hSO) hn
      exact mul_nonneg hcp (div_nonneg hnum hden)
  · simpa only [if_neg hlt] using hcp

theorem consumeEvents_nonneg (anti : AntiDilutionType) (floorP : Option ℝ) :
    ∀ (events : List ResetEvent) (cp : ℝ) (d : CalDate), 0 ≤ cp →
      (∀ e ∈ events, EventAdmissible e) →
      0 ≤ (consumeEvents anti floorP events cp d).1
  | [], _, _, hcp, _ => hcp
  | evt :: rest, cp, d, hcp, hall => by
    unfold consumeEvents
    by_cases hd : evt.event_date ≤ d
    · simp only [if_pos hd]
      exact consumeEvents_nonneg anti floorP rest _ d
        (applyResetEvent_nonneg anti floorP evt hcp (hall evt (by simp)))
        (fun e he => hall e (by simp [he]))
    · simpa only [if_neg hd] using hcp

theorem consumeEvents_rest_admissible (anti : AntiDilutionType) (floorP : Option ℝ) :
    ∀ (events : List ResetEvent) (cp : ℝ) (d : CalDate),
      (∀ e ∈ events, EventAdmissible e) →
      ∀ e ∈ (consumeEvents anti floorP events cp d).2, EventAdmissible e
  | [], _, _, _ => by simp [consumeEvents]
  | evt :: rest, cp, d, hall => by
    unfold consumeEvents
    by_cases hd : evt.event_date ≤ d
    · simp only [if_pos hd]
      exact consumeEvents_rest_admissible anti floorP rest _ d
        (fun e he => hall e (by simp [he]))
    · simp only [if_neg hd]
      exact hall

theorem cpSweep_nonneg (anti : AntiDilutionType) (floorP : Option ℝ) :
    ∀ (grid : List TimeStep) (events : List ResetEvent) (cp : ℝ), 0 ≤ cp →
      (∀ e ∈ events, EventAdmissible e) →
      ∀ x ∈ cpSweep anti floorP events cp grid, 0 ≤ x
  | [], _, _, _, _ => by simp [cpSweep]
  | ts :: rest, events, cp, hcp, hall => by
    unfold cpSweep
    intro x hx
    rcases List.mem_cons.mp hx with rfl | hx'
    · exact consumeEvents_nonneg anti floorP events cp ts.date hcp hall
    · exact cpSweep_nonneg anti floorP rest _ _
        (consumeEvents_nonneg anti floorP events cp ts.date hcp hall)
        (consumeEvents_rest_admissible anti floorP events cp ts.date hall) x hx'

theorem cpSchedule_nonneg (anti : AntiDilutionType) (floorP : Option ℝ)
    (events : List ResetEvent) {cp0 : ℝ} (grid : List TimeStep) (hcp0 : 0 ≤ cp0)
    (hev : ∀ e ∈ events, EventAdmissible e) (t : ℕ) :
    0 ≤ (cpSchedule anti floorP events cp0 grid).getD t cp0 := by
  unfold cpSchedule
  by_cases hg : anti ≠ AntiDilutionType.NONE ∧ 0 < events.length
  · simp only [if_pos hg]
    exact getD_lower_bound (cpSweep_nonneg anti floorP grid _ cp0 hcp0
      (fun e he => hev e ((List.mem_insertionSort _).mp he))) hcp0 t
  · simp only [if_neg hg]
    refine getD_lower_bound (fun x hx => ?_) hcp0 t
    obtain ⟨_, _, rfl⟩ := List.mem_map.mp hx
    exact hcp0

theorem effConvRatio_nonneg (sec : SecuritySchema) (cp_at : ℕ → ℝ)
    (hface : 0 ≤ unitFaceValue sec) (hcp : ∀ t, 0 ≤ cp_at t) (t : ℕ) :
    0 ≤ effConvRatio sec cp_at t := by
  unfold effConvRatio
  cases sec.conversion_ratio with
  | none => exact div_nonneg hface (hcp t)
  | some rr =>
    show 0 ≤ if 0 < rr ∧ sec.anti_dilution_type = AntiDilutionType.NONE then rr
      else unitFaceValue sec / cp_at t
    by_cases hr : 0 < rr ∧ sec.anti_dilution_type = AntiDilutionType.NONE
    · rw [if_pos hr]
      exact le_of_lt hr.1
    · rw [if_neg hr]
      exact div_nonneg hface (hcp t)

theorem tfTerminalNode_nonneg (P : TFParams) (hS0 : 0 ≤ P.S0) (hu : 0 ≤ P.u)
    (hd : 0 ≤ P.d) (hredeem : 0 ≤ P.redemption) (hcf : 0 ≤ P.cf)
    (hratio : ∀ t, 0 ≤ P.ratio t) (i : ℕ) :
    0 ≤ (tfTerminalNode P i).D ∧ 0 ≤ (tfTerminalNode P i).E := by
  have hS : 0 ≤ P.S P.N i := by
    unfold TFParams.S
    positivity
  have hconv : 0 ≤ P.S P.N i * P.ratio P.N := mul_nonneg hS (hratio _)
  simp only [tfTerminalNode]
  split_ifs <;>
    refine ⟨?_, ?_⟩ <;>
    first
      | exact le_refl 0
      | exact add_nonneg hredeem hcf
      | exact hconv
      | exact le_trans hconv (le_max_right _ _)

theorem applyConversion_nonneg {conv : ℝ} (hconv : 0 ≤ conv) (s : NodeState)
    (hD : 0 ≤ s.D) (hE : 0 ≤ s.E) :
    0 ≤ (applyConversion conv s).D ∧ 0 ≤ (applyConversion conv s).E := by
  unfold applyConversion
  split_ifs
  · exact ⟨le_refl 0, hconv⟩
  · exact ⟨hD, hE⟩

theorem applyCall_nonneg (canC : Bool) {callP : Option ℝ} {conv : ℝ} (hconv : 0 ≤ conv)
    (hcall : ∀ c, callP = some c → 0 ≤ c) (s : NodeState) (hD : 0 ≤ s.D)
    (hE : 0 ≤ s.E) :
    0 ≤ (applyCall canC callP conv s).D ∧ 0 ≤ (applyCall canC callP conv s).E := by
  cases callP with
  | none => rw [applyCall_none]; exact ⟨hD, hE⟩
  | some c =>
    cases canC with
    | false => rw [applyCall_false]; exact ⟨hD, hE⟩
    | true =>
      rw [show applyCall true (some c) conv s =
        if max c conv < s.V then
          (if c < conv then { V := max c conv, D := 0, E := conv, flag := "CALLED_FORCE_CONV" }
           else { V := max c conv, D := c, E := 0, flag := "CALLED" })
        else s from rfl]
      split_ifs
      · exact ⟨le_refl 0, hconv⟩
      · exact ⟨hcall c rfl, le_refl 0⟩
      · exact ⟨hD, hE⟩

theorem applyPut_nonneg (canP : Bool) {putP : Option ℝ}
    (hput : ∀ p, putP = some p → 0 ≤ p) (s : NodeState) (hD : 0 ≤ s.D) (hE : 0 ≤ s.E) :
    0 ≤ (applyPut canP putP s).D ∧ 0 ≤ (applyPut canP putP s).E := by
  cases putP with
  | none => rw [applyPut_none]; exact ⟨hD, hE⟩
  | some p =>
    cases canP with
    | false => rw [show applyPut false (some p) s = s from rfl]; exact ⟨hD, hE⟩
    | true =>
      rw [applyPut_some_true]
      split_ifs
      · exact ⟨hput p rfl, le_refl 0⟩
      · exact ⟨hD, hE⟩

/-- Backward induction: with `q ∈ [0, 1]` at every step (the
hypothesis `hq` says `d ≤ exp(r·dt) ≤ u`) and non-negative flows,
prices and strikes, both value legs stay non-negative at every lattice
node. -/
theorem tfLat_nonneg (P : TFParams) (hS0 : 0 ≤ P.S0) (hu : 0 ≤ P.u) (hd : 0 ≤ P.d)
    (hdu : P.d < P.u) (hredeem : 0 ≤ P.redemption) (hcf : 0 ≤ P.cf)
    (hratio : ∀ t, 0 ≤ P.ratio t)
    (hq : ∀ t, P.d ≤ Real.exp (P.rf.getD t 0 * P.dt) ∧
      Real.exp (P.rf.getD t 0 * P.dt) ≤ P.u)
    (hcall : ∀ c, P.callP = some c → 0 ≤ c)
    (hput : ∀ p, P.putP = some p → 0 ≤ p) :
    ∀ k i, 0 ≤ (tfLat P k i).D ∧ 0 ≤ (tfLat P k i).E
  | 0, i => tfTerminalNode_nonneg P hS0 hu hd hredeem hcf hratio i
  | k + 1, i => by
    obtain ⟨ihD, ihE⟩ := tfLat_nonneg P hS0 hu hd hdu hredeem hcf hratio hq hcall hput k i
    obtain ⟨ihD1, ihE1⟩ :=
      tfLat_nonneg P hS0 hu hd hdu hredeem hcf hratio hq hcall hput k (i + 1)
    have hS : 0 ≤ P.S (P.N - (k + 1)) i := by
      unfold TFParams.S
      positivity
    have hconv : 0 ≤ P.S (P.N - (k + 1)) i * P.ratio (P.N - (k + 1)) :=
      mul_nonneg hS (hratio _)
    have hqt := hq (P.N - (k + 1))
    have hq0 : 0 ≤ (Real.exp (P.rf.getD (P.N - (k + 1)) 0 * P.dt) - P.d) / (P.u - P.d) :=
      div_nonneg (by linarith [hqt.1]) (by linarith)
    have hq1 : (Real.exp (P.rf.getD (P.N - (k + 1)) 0 * P.dt) - P.d) / (P.u - P.d) ≤ 1 := by
      rw [div_le_one (by linarith)]
      linarith [hqt.2]
    have hED : 0 ≤ (Real.exp (P.rf.getD (P.N - (k + 1)) 0 * P.dt) - P.d) / (P.u - P.d) *
        (tfLat P k (i + 1)).D +
        (1 - (Real.exp (P.rf.getD (P.N - (k + 1)) 0 * P.dt) - P.d) / (P.u - P.d)) *
        (tfLat P k i).D :=
      add_nonneg (mul_nonneg hq0 ihD1) (mul_nonneg (by linarith) ihD)
    have hEE : 0 ≤ (Real.exp (P.rf.getD (P.N - (k + 1)) 0 * P.dt) - P.d) / (P.u - P.d) *
        (tfLat P k (i + 1)).E +
        (1 - (Real.exp (P.rf.getD (P.N - (k + 1)) 0 * P.dt) - P.d) / (P.u - P.d)) *
        (tfLat P k i).E :=
      add_nonneg (mul_nonneg hq0 ihE1) (mul_nonneg (by linarith) ihE)
    have hDc : 0 ≤ ((Real.exp (P.rf.getD (P.N - (k + 1)) 0 * P.dt) - P.d) / (P.u - P.d) *
        (tfLat P k (i + 1)).D +
        (1 - (Real.exp (P.rf.getD (P.N - (k + 1)) 0 * P.dt) - P.d) / (P.u - P.d)) *
        (tfLat P k i).D) *
        Real.exp (-((P.rf.getD (P.N - (k + 1)) 0 + P.cs.getD (P.N - (k + 1)) 0) * P.dt)) +
        P.cf :=
      add_nonneg (mul_nonneg hED (Real.exp_pos _).le) hcf
    have hEc : 0 ≤ ((Real.exp (P.rf.getD (P.N - (k + 1)) 0 * P.dt) - P.d) / (P.u - P.d) *
        (tfLat P k (i + 1)).E +
        (1 - (Real.exp (P.rf.getD (P.N - (k + 1)) 0 * P.dt) - P.d) / (P.u - P.d)) *
        (tfLat P k i).E) *
        Real.exp (-(P.rf.getD (P.N - (k + 1)) 0 * P.dt)) :=
      mul_nonneg hEE (Real.exp_pos _).le
    exact applyPut_nonneg (P.canP (P.N - (k + 1))) hput _
      (applyCall_nonneg (P.canC (P.N - (k + 1))) hconv hcall _
        (applyConversion_nonneg hconv _ hDc hEc).1
        (applyConversion_nonneg hconv _ hDc hEc).2).1
      (applyCall_nonneg (P.canC (P.N - (k + 1))) hconv hcall _
        (applyConversion_nonneg hconv _ hDc hEc).1
        (applyConversion_nonneg hconv _ hDc hEc).2).2

/-- Same induction for the single ESO equity leg. -/
theorem esoLat_nonneg (P : ESOParams) (hd : 0 ≤ P.d) (hdu : P.d < P.u)
    (hsurv : 0 ≤ P.survival)
    (hq : ∀ t, P.d ≤ Real.exp (P.rf.getD t 0 * P.dt) ∧
      Real.exp (P.rf.getD t 0 * P.dt) ≤ P.u) :
    ∀ k i, 0 ≤ esoLat P k i
  | 0, i => le_max_right _ _
  | k + 1, i => by
    have ih0 := esoLat_nonneg P hd hdu hsurv hq k i
    have ih1 := esoLat_nonneg P hd hdu hsurv hq k (i + 1)
    have hqt := hq (P.N - (k + 1))
    have hq0 : 0 ≤ (Real.exp (P.rf.getD (P.N - (k + 1)) 0 * P.dt) - P.d) / (P.u - P.d) :=
      div_nonneg (by linarith [hqt.1]) (by linarith)
    have hq1 : (Real.exp (P.rf.getD (P.N - (k + 1)) 0 * P.dt) - P.d) / (P.u - P.d) ≤ 1 := by
      rw [div_le_one (by linarith)]
      linarith [hqt.2]
    have hcont : 0 ≤ ((Real.exp (P.rf.getD (P.N - (k + 1)) 0 * P.dt) - P.d) / (P.u - P.d) *
        esoLat P k (i + 1) +
        (1 - (Real.exp (P.rf.getD (P.N - (k + 1)) 0 * P.dt) - P.d) / (P.u - P.d)) *
        esoLat P k i) * Real.exp (-(P.rf.getD (P.N - (k + 1)) 0 * P.dt)) :=
      mul_nonneg (add_nonneg (mul_nonneg hq0 ih1) (mul_nonneg (by linarith) ih0))
        (Real.exp_pos _).le
    show 0 ≤ (if P.vested (P.N - (k + 1)) then
        (if P.multiple * P.strike ≤ P.S (P.N - (k + 1)) i ∧
            ((Real.exp (P.rf.getD (P.N - (k + 1)) 0 * P.dt) - P.d) / (P.u - P.d) *
              esoLat P k (i + 1) +
              (1 - (Real.exp (P.rf.getD (P.N - (k + 1)) 0 * P.dt) - P.d) / (P.u - P.d)) *
              esoLat P k i) * Real.exp (-(P.rf.getD (P.N - (k + 1)) 0 * P.dt)) <
            max (P.S (P.N - (k + 1)) i - P.strike) 0 then
          max (P.S (P.N - (k + 1)) i - P.strike) 0
        else
          ((Real.exp (P.rf.getD (P.N - (k + 1)) 0 * P.dt) - P.d) / (P.u - P.d) *
            esoLat P k (i + 1) +
            (1 - (Real.exp (P.rf.getD (P.N - (k + 1)) 0 * P.dt) - P.d) / (P.u - P.d)) *
            esoLat P k i) * Real.exp (-(P.rf.getD (P.N - (k + 1)) 0 * P.dt)))
      else
        ((Real.exp (P.rf.getD (P.N - (k + 1)) 0 * P.dt) - P.d) / (P.u - P.d) *
          esoLat P k (i + 1) +
          (1 - (Real.exp (P.rf.getD (P.N - (k + 1)) 0 * P.dt) - P.d) / (P.u - P.d)) *
          esoLat P k i) * Real.exp (-(P.rf.getD (P.N - (k + 1)) 0 * P.dt))) * P.survival
    refine mul_nonneg ?_ hsurv
    split_ifs
    · exact le_max_right _ _
    · exact hcont
    · exact hcont

/-- C2 (amended): for non-negative inputs (spot, CRR factors, unit
face, conversion price, redemption, periodic cash flow, admissible
reset events, call and put strikes) *and* an unclamped risk-neutral
probability that actually lies in `[0, 1]` at every step
(`d ≤ exp(r_t·dt) ≤ u`), every TF lattice node satisfies
`D[t][i] ≥ 0` and `E[t][i] ≥ 0`, and every ESO node satisfies
`E[t][i] ≥ 0`.  (Without the probability restriction this fails — see
the counterexample.) -/
theorem C2_theorem (sec : SecuritySchema) (tg : List TimeStep) (rf cs : List ℝ)
    (dt u d : ℝ) (N : ℕ)
    (hS0 : 0 ≤ sec.share_price_current) (hu : 0 ≤ u) (hd : 0 ≤ d) (hdu : d < u)
    (hface : 0 ≤ unitFaceValue sec) (hcp0 : 0 ≤ sec.conversion_price)
    (hev : ∀ e ∈ sec.reset_events, EventAdmissible e)
    (hredeem : 0 ≤ unitRedemptionValue sec) (hcf : 0 ≤ unitPeriodicCF sec dt)
    (hq : ∀ t, d ≤ Real.exp (rf.getD t 0 * dt) ∧ Real.exp (rf.getD t 0 * dt) ≤ u)
    (hcall : ∀ c, sec.call_price = some c → 0 ≤ c)
    (hput : ∀ p, sec.put_price = some p → 0 ≤ p) :
    (∀ k i, 0 ≤ (tfLat (tfParamsOf sec tg rf cs dt u d N) k i).D ∧
        0 ≤ (tfLat (tfParamsOf sec tg rf cs dt u d N) k i).E) ∧
    (∀ k i, 0 ≤ esoLat (esoParamsOf sec tg rf dt u d N) k i) := by
  constructor
  · refine tfLat_nonneg _ hS0 hu hd hdu hredeem hcf ?_ hq hcall hput
    intro t
    exact effConvRatio_nonneg sec _ hface
      (fun s => cpSchedule_nonneg _ _ _ tg hcp0 hev s) t
  · exact esoLat_nonneg _ hd hdu (Real.exp_pos _).le hq

theorem c3_u_gt_one : 1 < engineU c3Sec := by
  rw [engineU, c3_dt]
  rw [Real.one_lt_exp_iff]
  rw [show c3Sec.volatility = 1 from rfl, one_mul]
  exact Real.sqrt_pos.mpr (by norm_num)

theorem c3_down_lt_u : engineDown c3Sec < engineU c3Sec := by
  have h1 := c3_u_gt_one
  rw [engineDown]
  have hpos : (0:ℝ) < engineU c3Sec := lt_trans one_pos h1
  have : 1 / engineU c3Sec < 1 := by
    rw [div_lt_one hpos]
    exact h1
  linarith

theorem c3_rf_getD (t : ℕ) : (engineRf c3Sec).getD t 0 = 0 := by
  rw [c3_rf]
  cases t with
  | zero => simp
  | succ n => simp [List.getD]

/-- C2 witness: the amended non-negativity applied to the concrete CB
of the C3 development (zero rates, so `exp(r·dt) = 1` sits between
`d < 1 < u` and the step probability is honestly in `[0, 1]`),
instantiated at the root lattice node, plus the ESO leg. -/
theorem C2_witness :
    engineDown c3Sec < engineU c3Sec ∧
      (0 ≤ (tfLat (tfParamsOf c3Sec (engineGrid c3Sec) (engineRf c3Sec) (engineCs c3Sec)
          (engineDt c3Sec) (engineU c3Sec) (engineDown c3Sec) (engineN c3Sec)) 1 0).D ∧
        0 ≤ (tfLat (tfParamsOf c3Sec (engineGrid c3Sec) (engineRf c3Sec) (engineCs c3Sec)
          (engineDt c3Sec) (engineU c3Sec) (engineDown c3Sec) (engineN c3Sec)) 1 0).E) ∧
      0 ≤ esoLat (esoParamsOf c3Sec (engineGrid c3Sec) (engineRf c3Sec) (engineDt c3Sec)
        (engineU c3Sec) (engineDown c3Sec) (engineN c3Sec)) 1 0 := by
  have hu1 := c3_u_gt_one
  have hdu := c3_down_lt_u
  have hupos : (0:ℝ) < engineU c3Sec := lt_trans one_pos hu1
  have hdpos : (0:ℝ) < engineDown c3Sec := by
    rw [engineDown]
    positivity
  have hq : ∀ t, engineDown c3Sec ≤ Real.exp ((engineRf c3Sec).getD t 0 * engineDt c3Sec) ∧
      Real.exp ((engineRf c3Sec).getD t 0 * engineDt c3Sec) ≤ engineU c3Sec := by
    intro t
    rw [c3_rf_getD, zero_mul, Real.exp_zero]
    constructor
    · rw [engineDown]
      have : 1 / engineU c3Sec ≤ 1 := by
        rw [div_le_one hupos]
        exact le_of_lt hu1
      linarith
    · exact le_of_lt hu1
  have h := C2_theorem c3Sec (engineGrid c3Sec) (engineRf c3Sec) (engineCs c3Sec)
    (engineDt c3Sec) (engineU c3Sec) (engineDown c3Sec) (engineN c3Sec)
    (by rw [show c3Sec.share_price_current = (1:ℝ) from rfl]; norm_num)
    (le_of_lt hupos) (le_of_lt hdpos) hdu
    (by rw [unitFaceValue, if_pos (show c3Sec.security_type = SecurityType.CB from rfl),
        show c3Sec.total_issue_price = (1:ℝ) from rfl]; norm_num)
    (by rw [show c3Sec.conversion_price = (1000:ℝ) from rfl]; norm_num)
    (by rw [show c3Sec.reset_events = ([] : List ResetEvent) from rfl]; simp)
    (by rw [show unitRedemptionValue c3Sec = 1 from c3_redemption]; norm_num)
    (by rw [show unitPeriodicCF c3Sec (engineDt c3Sec) = 0 from c3_cf])
    hq
    (by intro c hc; rw [show c3Sec.call_price = (none : Option ℝ) from rfl] at hc; cases hc)
    (by intro p hp; rw [show c3Sec.put_price = (none : Option ℝ) from rfl] at hp; cases hp)
  exact ⟨hdu, h.1 1 0, h.2 1 0⟩

/-- The C2 counterexample security: a one-week CB with unit face and
at-the-money conversion whose rate inputs make the lattice exactly
rational: `u = 10/9`, `d = 9/10`, `exp(r·dt) = 2` (so the unclamped
`q = (2 - 9/10)/(10/9 - 9/10) = 99/19 > 1`) and risky step discount
`1/3`.  The up child converts (`D = 0`) while the down child redeems
(`D = 1`), so the root debt expectation `q·0 + (1-q)·1 = -80/19` is
negative and survives discounting and the decision cascade. -/
noncomputable def c2Sec : SecuritySchema :=
  { sampleRCPS with
    security_type := SecurityType.CB,
    total_issue_price := 1,
    num_issued_shares := 1,
    share_price_current := 1,
    valuation_date := 0,
    maturity_date := 7,
    coupon_rate := 0,
    dividend_rate := 0,
    repayment_premium_rate := none,
    conversion_price := 1,
    volatility := Real.sqrt (365 / 7) * Real.log (10 / 9),
    risk_free_rate := 365 / 7 * Real.log 2,
    credit_spread := 365 / 7 * Real.log (3 / 2) }

theorem c2_grid : engineGrid c2Sec =
    [ { step := 0, date := 0, t_years := 0 },
      { step := 1, date := 7, t_years := 7 / 365 } ] := by
  show generateTimeGrid 0 7 = _
  exact generateTimeGrid_0_7

theorem c2_N : engineN c2Sec = 1 := by
  rw [engineN, c2_grid]
  rfl

theorem c2_dt : engineDt c2Sec = 7 / 365 := by
  rw [engineDt, c2_grid, c2_N]
  norm_num

theorem c2_u : engineU c2Sec = 10 / 9 := by
  rw [engineU, c2_dt]
  rw [show c2Sec.volatility * Real.sqrt (7 / 365)
      = Real.log (10 / 9) * (Real.sqrt (365 / 7) * Real.sqrt (7 / 365)) from by
    rw [show c2Sec.volatility = Real.sqrt (365 / 7) * Real.log (10 / 9) from rfl]
    ring]
  rw [show Real.sqrt (365 / 7) * Real.sqrt (7 / 365) = 1 from by
    rw [← Real.sqrt_mul (by norm_num : (0:ℝ) ≤ 365 / 7)]
    norm_num]
  rw [mul_one]
  exact Real.exp_log (by norm_num)

theorem c2_down : engineDown c2Sec = 9 / 10 := by
  rw [engineDown, c2_u]
  norm_num

theorem c2_rf : engineRf c2Sec = [365 / 7 * Real.log 2] := by
  rw [show engineRf c2Sec
    = List.replicate (engineN c2Sec) c2Sec.risk_free_rate from rfl, c2_N]
  rfl

theorem c2_cs : engineCs c2Sec = [365 / 7 * Real.log (3 / 2)] := by
  rw [show engineCs c2Sec
    = List.replicate (engineN c2Sec) c2Sec.credit_spread from rfl, c2_N]
  rfl

/-- The TF parameter block of the C2 counterexample security. -/
noncomputable def c2P : TFParams :=
  tfParamsOf c2Sec (engineGrid c2Sec) (engineRf c2Sec) (engineCs c2Sec) (engineDt c2Sec)
    (engineU c2Sec) (engineDown c2Sec) (engineN c2Sec)

theorem c2P_N : c2P.N = 1 := c2_N

theorem c2P_u : c2P.u = 10 / 9 := c2_u

theorem c2P_d : c2P.d = 9 / 10 := c2_down

theorem c2P_dt : c2P.dt = 7 / 365 := c2_dt

theorem c2P_rf : c2P.rf = [365 / 7 * Real.log 2] := c2_rf

theorem c2P_cs : c2P.cs = [365 / 7 * Real.log (3 / 2)] := c2_cs

theorem c2P_call : c2P.callP = none := rfl

theorem c2P_put : c2P.putP = none := rfl

theorem c2P_S0 : c2P.S0 = 1 := rfl

theorem c2P_cf : c2P.cf = 0 := by
  show unitPeriodicCF c2Sec (engineDt c2Sec) = 0
  rw [unitPeriodicCF, if_pos (show c2Sec.security_type = SecurityType.CB from rfl)]
  norm_num [show c2Sec.coupon_rate = 0 from rfl,
    show c2Sec.total_issue_price = (1:ℝ) from rfl]

theorem c2P_redemption : c2P.redemption = 1 := by
  show unitRedemptionValue c2Sec = 1
  rw [unitRedemptionValue, unitFaceValue,
    if_pos (show c2Sec.security_type = SecurityType.CB from rfl)]
  norm_num [show c2Sec.repayment_premium_rate = none from rfl,
    show c2Sec.total_issue_price = (1:ℝ) from rfl]

theorem c2_cp_list : cpSchedule c2Sec.anti_dilution_type c2Sec.refixing_floor_price
    c2Sec.reset_events c2Sec.conversion_price (engineGrid c2Sec)
    = (engineGrid c2Sec).map (fun _ => c2Sec.conversion_price) := by
  rw [cpSchedule, if_neg]
  simp [show c2Sec.anti_dilution_type = AntiDilutionType.NONE from rfl]

theorem c2_ratio (t : ℕ) : c2P.ratio t = 1 := by
  show unitFaceValue c2Sec / ((cpSchedule c2Sec.anti_dilution_type
    c2Sec.refixing_floor_price c2Sec.reset_events c2Sec.conversion_price
    (engineGrid c2Sec)).getD t c2Sec.conversion_price) = 1
  rw [c2_cp_list, getD_map_const, unitFaceValue,
    if_pos (show c2Sec.security_type = SecurityType.CB from rfl)]
  norm_num [show c2Sec.conversion_price = (1:ℝ) from rfl,
    show c2Sec.total_issue_price = (1:ℝ) from rfl]

theorem c2_term0 : tfTerminalNode c2P 0 = { V := 1, D := 1, E := 0, flag := "MAT_REDEEM" } := by
  have hS : c2P.S c2P.N 0 = 9 / 10 := by
    show c2P.S0 * c2P.u ^ 0 * c2P.d ^ (c2P.N - 0) = 9 / 10
    rw [c2P_S0, c2P_u, c2P_d, c2P_N]
    norm_num
  simp only [tfTerminalNode, hS, c2_ratio, c2P_redemption, c2P_cf]
  rw [if_neg (show ¬ (c2P.secType = SecurityType.RCPS ∧
    c2P.partType = ParticipationType.PARTICIPATING) from by
      simp [show c2P.secType = SecurityType.CB from rfl])]
  rw [if_neg (show ¬ ((1:ℝ) + 0 < 9 / 10 * 1) from by norm_num)]
  norm_num

theorem c2_term1 : tfTerminalNode c2P 1 =
    { V := 10 / 9, D := 0, E := 10 / 9, flag := "MAT_CONVERT" } := by
  have hS : c2P.S c2P.N 1 = 10 / 9 := by
    show c2P.S0 * c2P.u ^ 1 * c2P.d ^ (c2P.N - 1) = 10 / 9
    rw [c2P_S0, c2P_u, c2P_d, c2P_N]
    norm_num
  simp only [tfTerminalNode, hS, c2_ratio, c2P_redemption, c2P_cf]
  rw [if_neg (show ¬ (c2P.secType = SecurityType.RCPS ∧
    c2P.partType = ParticipationType.PARTICIPATING) from by
      simp [show c2P.secType = SecurityType.CB from rfl])]
  rw [if_pos (show (1:ℝ) + 0 < 10 / 9 * 1 from by norm_num)]
  rw [if_neg (show ¬ c2P.partType = ParticipationType.PARTICIPATING from by
    simp [show c2P.partType = ParticipationType.NON_PARTICIPATING from rfl])]
  norm_num

theorem c2_exp_rdt : Real.exp (365 / 7 * Real.log 2 * (7 / 365)) = 2 := by
  rw [show (365:ℝ) / 7 * Real.log 2 * (7 / 365) = Real.log 2 from by ring]
  exact Real.exp_log (by norm_num)

theorem c2_df_rf : Real.exp (-(365 / 7 * Real.log 2 * (7 / 365))) = 1 / 2 := by
  rw [show -((365:ℝ) / 7 * Real.log 2 * (7 / 365)) = -Real.log 2 from by ring]
  rw [Real.exp_neg, Real.exp_log (by norm_num)]
  norm_num

theorem c2_df_risky :
    Real.exp (-((365 / 7 * Real.log 2 + 365 / 7 * Real.log (3 / 2)) * (7 / 365)))
      = 1 / 3 := by
  rw [show -(((365:ℝ) / 7 * Real.log 2 + 365 / 7 * Real.log (3 / 2)) * (7 / 365))
      = -(Real.log 2 + Real.log (3 / 2)) from by ring]
  rw [← Real.log_mul (by norm_num) (by norm_num)]
  rw [show (2:ℝ) * (3 / 2) = 3 from by norm_num]
  rw [Real.exp_neg, Real.exp_log (by norm_num)]
  norm_num

theorem c2_root_D : (tfLat c2P 1 0).D = -80 / 57 := by
  have ht0 := c2_term0
  have ht1 := c2_term1
  show (tfLat c2P (0 + 1) 0).D = _
  simp only [tfLat, Nat.zero_add, c2P_N, Nat.sub_self, c2P_rf, c2P_cs, c2P_call, c2P_put,
    c2P_dt, List.getD_cons_zero, ht0, ht1, c2_ratio, c2P_cf, applyCall_none, applyPut_none,
    TFParams.S, c2P_S0, c2P_u, c2P_d]
  rw [c2_exp_rdt, c2_df_rf, c2_df_risky]
  rw [applyConversion, if_neg (by norm_num)]
  norm_num

/-- C2 counterexample: the code does not clamp the risk-neutral
probability `q = (exp(r·dt) - d)/(u - d)`; on admissible (positive)
inputs with a large one-step rate, `q = 99/19 > 1` makes the debt leg
of the root node negative — both in the lattice (`D[0][0] = -80/57`)
and in the reported `tf_debt_component`. -/
theorem C2_counterexample :
    (tfLat (tfParamsOf c2Sec (engineGrid c2Sec) (engineRf c2Sec) (engineCs c2Sec)
        (engineDt c2Sec) (engineU c2Sec) (engineDown c2Sec) (engineN c2Sec))
      (engineN c2Sec) 0).D < 0 ∧
    (runPricingEngine c2Sec).tf_debt_component < 0 := by
  have hD : (tfLat c2P 1 0).D = -80 / 57 := c2_root_D
  constructor
  · show (tfLat c2P (engineN c2Sec) 0).D < 0
    rw [c2_N, hD]
    norm_num
  · rw [runPricingEngine_eq_TF c2Sec (by decide)]
    simp only [calculateTF]
    rw [show tfParamsOf c2Sec (engineGrid c2Sec) (engineRf c2Sec) (engineCs c2Sec)
        (engineDt c2Sec) (engineU c2Sec) (engineDown c2Sec) (engineN c2Sec) = c2P from rfl]
    rw [c2_N, hD]
    norm_num

end HybridPricing
